import Mathlib

/-!
# Observer: telemetry aggregation loop

A shallow embedding of `internal/observer/observer.go`.

* `Observer` holds the fields of the Go struct.  The two unbuffered channels
  `exitSignal` and `stopDone` never hold a value: a send on them is a rendezvous,
  represented by the program counter of the blocked party (`CallerPC`, `LoopPC`).
* `iteration` is one pass through the body of the `for` loop of the goroutine
  launched by `Start` (lines 61-91); `runLoop` folds it over the wake-ups of the loop.
* `World` and `step` give the interleaving semantics of the lifecycle caller, the
  producers and the goroutines.

* `Send` is called with `&buffer`, the address of the one variable `buffer` that the
  goroutine declares before its loop (line 58), overwrites at line 89 and refills at
  lines 75 and 77.  `Effect.send` records that pointer together with the contents of the
  variable at the call; `BufferPtr.deref` gives what the pointer designates later.

Instants (`time.Time`) and durations (`time.Duration`) are integers counting
nanoseconds; `time.Now()` is an input of each step.  The type `R` stands for
`*models.TargetWriteResult`, which the package never inspects.

`Start` and `Stop` are called by one serialized caller (the flag `isRunning` is not
synchronized); any number of producers push concurrently.
-/

namespace Snowbridge

/-- An instant, in nanoseconds (`time.Time`). -/
abbrev Time := Int

/-- A signed span of time, in nanoseconds (`time.Duration`). -/
abbrev Duration := Int

/-- Modelled from the spec: `models.ObserverBuffer` is declared outside this package.
The spec describes it as an accumulator that merges a write result tagged with an
oversized flag; it is represented by the sequence of merged entries, in merge order.
The zero value `models.ObserverBuffer{}` is the empty sequence. -/
structure ObserverBuffer (R : Type) where
  entries : List (R × Bool)
deriving DecidableEq, Repr

/-- Modelled from the spec: the zero value `models.ObserverBuffer{}`, the empty buffer. -/
def ObserverBuffer.empty {R : Type} : ObserverBuffer R := ⟨[]⟩

/-- Modelled from the spec: `buffer.Append(res, oversized)` merges one result with its
oversized flag into the accumulator. -/
def ObserverBuffer.Append {R : Type} (buffer : ObserverBuffer R) (res : R) (oversized : Bool) :
    ObserverBuffer R :=
  ⟨buffer.entries ++ [(res, oversized)]⟩

/-- The pointers the goroutine hands out.  There is one: `&buffer`, the address of the
variable `buffer` declared once, at line 58, before the loop.  Every call of `Send` made
by a goroutine passes this same address (lines 69 and 85); the variable is overwritten in
place at line 89 and refilled at lines 75 and 77.  The pointer is relative to the
goroutine that performs the call: each goroutine has its own variable. -/
inductive BufferPtr where
  | buffer
deriving DecidableEq, Repr

/-- The two warnings the package logs. -/
inductive Warning where
  | alreadyRunning
  | receivedExitSignal
deriving DecidableEq, Repr

/-- The externally visible effects of the package, in program order. -/
inductive Effect (R : Type) where
  /-- Records `o.log.Warn(...)`. -/
  | warn (w : Warning)
  /-- Records `o.log.Infof(buffer.String())`: the buffer summary is logged. -/
  | info (buffer : ObserverBuffer R)
  /-- Records `o.log.Debugf(...)` after an idle timeout. -/
  | debug (timeout : Duration)
  /-- Records `o.statsClient.Send(&buffer)`: `ptr` is the argument, the address of the
  variable `buffer` of the goroutine, and `atCall` the contents of that variable when the
  call is made, which is what the client reads during the call.  What it reads through
  `ptr` afterwards is the later contents of the variable: see `BufferPtr.deref`. -/
  | send (ptr : BufferPtr) (atCall : ObserverBuffer R)
deriving DecidableEq, Repr

/-- The fields of the Go struct `Observer`.  `statsClient` records whether the
interface value is non-nil; the channels hold the pending results, oldest first. -/
structure Observer (R : Type) where
  statsClient : Bool
  targetWriteChan : List R
  targetWriteOversizedChan : List R
  timeout : Duration
  reportInterval : Duration
  isRunning : Bool
deriving DecidableEq, Repr

/-- Capacity given to `make(chan *models.TargetWriteResult, 1000)` for both channels. -/
def chanCapacity : Nat := 1000

/-- The constructor `New`. -/
def New {R : Type} (statsClient : Bool) (timeout : Duration) (reportInterval : Duration) :
    Observer R :=
  { statsClient := statsClient
    targetWriteChan := []
    targetWriteOversizedChan := []
    timeout := timeout
    reportInterval := reportInterval
    isRunning := false }

/-- The local variables of the goroutine: `reportTime` and `buffer`. -/
structure LoopState (R : Type) where
  reportTime : Time
  buffer : ObserverBuffer R
deriving DecidableEq, Repr

/-- Lines 57-58: the locals at loop entry, `now` being the value of `time.Now()`. -/
def loopEntry {R : Type} (o : Observer R) (now : Time) : LoopState R :=
  { reportTime := now + o.reportInterval, buffer := ObserverBuffer.empty }

/-- The case of the `select` statement that fired, with the value received. -/
inductive Selected (R : Type) where
  | exitSignal
  | targetWrite (res : R)
  | targetWriteOversized (res : R)
  | timeAfter
deriving DecidableEq, Repr

/-- One wake-up of the loop: the case selected, the value of `time.Now()` read by the
deadline test (line 82) and the one read when the deadline is recomputed (line 88,
read only when the test succeeds). -/
structure Tick (R : Type) where
  selected : Selected R
  now : Time
  nowReset : Time
deriving DecidableEq, Repr

/-- Result of one pass through the loop body.  `stopped` tells that lines 72-73 ran:
`o.isRunning = false` followed by `break ObserverLoop`. -/
structure IterOut (R : Type) where
  state : LoopState R
  effects : List (Effect R)
  stopped : Bool
deriving DecidableEq, Repr

/-- What a pointer handed to `Send` designates once the locals of the goroutine are `s`:
the current contents of the variable `buffer`. -/
def BufferPtr.deref {R : Type} : BufferPtr → LoopState R → ObserverBuffer R
  | BufferPtr.buffer, s => s.buffer

/-- Lines 67-70 and 83-86: log the summary, then `Send` when the client is not nil. -/
def flushEffects {R : Type} (o : Observer R) (buffer : ObserverBuffer R) : List (Effect R) :=
  Effect.info buffer :: (if o.statsClient then [Effect.send BufferPtr.buffer buffer] else [])

/-- Lines 82-90: the deadline test that follows the `select`. -/
def deadlineCheck {R : Type} (o : Observer R) (s : LoopState R) (now nowReset : Time) :
    IterOut R :=
  if now > s.reportTime then
    { state := { reportTime := nowReset + o.reportInterval, buffer := ObserverBuffer.empty }
      effects := flushEffects o s.buffer
      stopped := false }
  else
    { state := s, effects := [], stopped := false }

/-- Lines 62-90: one iteration of `ObserverLoop`. -/
def iteration {R : Type} (o : Observer R) (s : LoopState R) (t : Tick R) : IterOut R :=
  match t.selected with
  | Selected.exitSignal =>
    { state := s
      effects := Effect.warn Warning.receivedExitSignal :: flushEffects o s.buffer
      stopped := true }
  | Selected.targetWrite res =>
    deadlineCheck o { s with buffer := s.buffer.Append res false } t.now t.nowReset
  | Selected.targetWriteOversized res =>
    deadlineCheck o { s with buffer := s.buffer.Append res true } t.now t.nowReset
  | Selected.timeAfter =>
    let out := deadlineCheck o s t.now t.nowReset
    { out with effects := Effect.debug o.timeout :: out.effects }

/-- The loop of lines 61-91 run over a sequence of wake-ups: the locals after the last
iteration executed, all effects in order, and whether the loop was left by `break`.
Wake-ups that follow the `break` are not executed. -/
def runLoop {R : Type} (o : Observer R) (s : LoopState R) : List (Tick R) → IterOut R
  | [] => { state := s, effects := [], stopped := false }
  | t :: ts =>
    let out := iteration o s t
    if out.stopped then out
    else
      let rest := runLoop o out.state ts
      { rest with effects := out.effects ++ rest.effects }

/-- The contents, at the call, of the buffers handed to `Send`, in call order. -/
def sends {R : Type} : List (Effect R) → List (ObserverBuffer R)
  | [] => []
  | Effect.send _ b :: es => b :: sends es
  | _ :: es => sends es

/-- The pointers handed to `Send`, in call order. -/
def sentPtrs {R : Type} : List (Effect R) → List BufferPtr
  | [] => []
  | Effect.send p _ :: es => p :: sentPtrs es
  | _ :: es => sentPtrs es

/-- What a client that kept the pointers it was handed reads through them once the locals
of the goroutine are `s`, one buffer per call of `Send`. -/
def heldBuffers {R : Type} (effects : List (Effect R)) (s : LoopState R) :
    List (ObserverBuffer R) :=
  (sentPtrs effects).map fun p => p.deref s

/-- The buffers whose summary was logged by a flush, in order. -/
def flushes {R : Type} : List (Effect R) → List (ObserverBuffer R)
  | [] => []
  | Effect.info b :: es => b :: flushes es
  | _ :: es => flushes es

/-- The entry a wake-up merges into the buffer: none for the exit signal and the timeout. -/
def merged {R : Type} (t : Tick R) : List (R × Bool) :=
  match t.selected with
  | Selected.targetWrite res => [(res, false)]
  | Selected.targetWriteOversized res => [(res, true)]
  | _ => []

/-- Program counter of the lifecycle caller.  `sendingExit`: blocked in `Stop` at
`o.exitSignal <- struct{}{}` (line 99); `awaitingDone`: blocked at `<-o.stopDone`
(line 100); `idle`: outside `Start` and `Stop`. -/
inductive CallerPC where
  | idle
  | sendingExit
  | awaitingDone
deriving DecidableEq, Repr

/-- Program counter of a goroutine created by `Start`.  `launched`: created, line 57
not yet run; `selecting`: at the `select` (line 62) with its locals; `sendingDone`:
out of the loop, blocked at `o.stopDone <- struct{}{}` (line 92); `finished`: returned. -/
inductive LoopPC (R : Type) where
  | launched
  | selecting (s : LoopState R)
  | sendingDone
  | finished
deriving DecidableEq, Repr

/-- The observer together with its threads: the lifecycle caller, the goroutines created
so far (oldest first) and the effects performed so far. -/
structure World (R : Type) where
  o : Observer R
  caller : CallerPC
  loops : List (LoopPC R)
  effects : List (Effect R)
deriving DecidableEq, Repr

/-- A freshly constructed observer: no goroutine, the caller outside any call. -/
def World.new {R : Type} (statsClient : Bool) (timeout reportInterval : Duration) : World R :=
  { o := New statsClient timeout reportInterval, caller := CallerPC.idle, loops := [], effects := [] }

/-- The function `Start`, lines 49-56 and the `go` statement: on a running observer the
warning is logged and the call returns; otherwise the flag is set and a goroutine is
created, which runs lines 57-92 in later steps.  The call never blocks. -/
def Start {R : Type} (w : World R) : World R :=
  if w.o.isRunning then
    { w with effects := w.effects ++ [Effect.warn Warning.alreadyRunning] }
  else
    { w with o := { w.o with isRunning := true }, loops := w.loops ++ [LoopPC.launched] }

/-- Lines 97-99 of `Stop`: when running the caller offers a value on `exitSignal` and
blocks; otherwise the call returns. -/
def Stop {R : Type} (w : World R) : World R :=
  if w.o.isRunning then { w with caller := CallerPC.sendingExit } else w

/-- A send on a channel of the given capacity: it completes, appending at the tail,
when fewer than `capacity` values are pending, and blocks (`none`) otherwise. -/
def chanSend {R : Type} (capacity : Nat) (chan : List R) (r : R) : Option (List R) :=
  if chan.length < capacity then some (chan ++ [r]) else none

/-- The body of `TargetWrite`, line 109: `o.targetWriteChan <- r`. -/
def TargetWrite {R : Type} (w : World R) (r : R) : Option (World R) :=
  (chanSend chanCapacity w.o.targetWriteChan r).map
    fun q => { w with o := { w.o with targetWriteChan := q } }

/-- The body of `TargetWriteOversized`, line 115: `o.targetWriteOversizedChan <- r`. -/
def TargetWriteOversized {R : Type} (w : World R) (r : R) : Option (World R) :=
  (chanSend chanCapacity w.o.targetWriteOversizedChan r).map
    fun q => { w with o := { w.o with targetWriteOversizedChan := q } }

/-- The four cases of the `select` statement. -/
inductive SelectCase where
  | exitSignal
  | targetWriteChan
  | targetWriteOversizedChan
  | timeAfter
deriving DecidableEq, Repr

/-- The communication of a `select` case: `none` when the case is not ready.  The exit
case is ready when the caller is blocked sending on `exitSignal`, and releases it to the
receive on `stopDone`; a channel case takes the oldest pending value; among the ready
cases any one may be taken.  Durations are not tracked by the schedules, so the case
`<-time.After(o.timeout)` may be taken at any step. -/
def receive {R : Type} (w : World R) : SelectCase → Option (Selected R × World R)
  | SelectCase.exitSignal =>
    if w.caller = CallerPC.sendingExit then
      some (Selected.exitSignal, { w with caller := CallerPC.awaitingDone })
    else none
  | SelectCase.targetWriteChan =>
    match w.o.targetWriteChan with
    | [] => none
    | r :: q => some (Selected.targetWrite r, { w with o := { w.o with targetWriteChan := q } })
  | SelectCase.targetWriteOversizedChan =>
    match w.o.targetWriteOversizedChan with
    | [] => none
    | r :: q =>
      some (Selected.targetWriteOversized r, { w with o := { w.o with targetWriteOversizedChan := q } })
  | SelectCase.timeAfter => some (Selected.timeAfter, w)

/-- Goroutine `i` runs lines 57-58. -/
def loopBegin {R : Type} (w : World R) (i : Nat) (now : Time) : Option (World R) :=
  match w.loops[i]? with
  | some LoopPC.launched =>
    some { w with loops := w.loops.set i (LoopPC.selecting (loopEntry w.o now)) }
  | _ => none

/-- Goroutine `i` runs one iteration of the loop with the given `select` case. -/
def loopSelect {R : Type} (w : World R) (i : Nat) (c : SelectCase) (now nowReset : Time) :
    Option (World R) :=
  match w.loops[i]? with
  | some (LoopPC.selecting s) =>
    match receive w c with
    | none => none
    | some (sel, w1) =>
      let out := iteration w1.o s ⟨sel, now, nowReset⟩
      some { w1 with
        o := { w1.o with isRunning := if out.stopped then false else w1.o.isRunning }
        loops := w1.loops.set i (if out.stopped then LoopPC.sendingDone else LoopPC.selecting out.state)
        effects := w1.effects ++ out.effects }
  | _ => none

/-- Goroutine `i` completes line 92 with the caller blocked at line 100; `Stop` returns. -/
def loopDone {R : Type} (w : World R) (i : Nat) : Option (World R) :=
  match w.loops[i]? with
  | some LoopPC.sendingDone =>
    if w.caller = CallerPC.awaitingDone then
      some { w with caller := CallerPC.idle, loops := w.loops.set i LoopPC.finished }
    else none
  | _ => none

/-- The atomic steps of the system. -/
inductive Action (R : Type) where
  /-- The lifecycle caller calls `Start()`. -/
  | callStart
  /-- The lifecycle caller calls `Stop()`. -/
  | callStop
  /-- A producer completes `TargetWrite(r)`. -/
  | targetWrite (r : R)
  /-- A producer completes `TargetWriteOversized(r)`. -/
  | targetWriteOversized (r : R)
  | loopBegin (i : Nat) (now : Time)
  | loopSelect (i : Nat) (c : SelectCase) (now nowReset : Time)
  | loopDone (i : Nat)
deriving DecidableEq, Repr

/-- One step of the system; `none` when the step is not enabled (the thread is blocked). -/
def step {R : Type} (w : World R) : Action R → Option (World R)
  | Action.callStart => if w.caller = CallerPC.idle then some (Start w) else none
  | Action.callStop => if w.caller = CallerPC.idle then some (Stop w) else none
  | Action.targetWrite r => TargetWrite w r
  | Action.targetWriteOversized r => TargetWriteOversized w r
  | Action.loopBegin i now => loopBegin w i now
  | Action.loopSelect i c now nowReset => loopSelect w i c now nowReset
  | Action.loopDone i => loopDone w i

/-- A schedule: the steps taken one after the other. -/
def exec {R : Type} (w : World R) : List (Action R) → Option (World R)
  | [] => some w
  | a :: rest => (step w a).bind fun w1 => exec w1 rest

/-- The deadline flush happens in an iteration: a case other than the exit signal was
selected and the clock has passed `reportTime`. -/
def deadlineFlush {R : Type} (s : LoopState R) (t : Tick R) : Prop :=
  t.selected ≠ Selected.exitSignal ∧ t.now > s.reportTime

instance {R : Type} (s : LoopState R) (t : Tick R) [DecidableEq R] : Decidable (deadlineFlush s t) := by
  unfold deadlineFlush; infer_instance

/-- Tells whether an effect is a call of `Send`. -/
def Effect.isSend {R : Type} : Effect R → Bool
  | Effect.send _ _ => true
  | _ => false

/-- The entries of a sequence of buffers, one buffer after the other. -/
def allEntries {R : Type} : List (ObserverBuffer R) → List (R × Bool)
  | [] => []
  | b :: bs => b.entries ++ allEntries bs

/-- Milliseconds as a number of nanoseconds. -/
def ms (n : Int) : Int := n * 1000000

/-- The scenario of the specification: results pushed at 0, 150 (oversized), 200 and
300 ms, the loop otherwise woken by its 100 ms timeout. -/
def scenario : List (Tick Nat) :=
  [⟨.targetWrite 1, ms 0, ms 0⟩, ⟨.timeAfter, ms 100, ms 100⟩, ⟨.targetWriteOversized 9, ms 150, ms 150⟩,
   ⟨.targetWrite 2, ms 200, ms 200⟩, ⟨.targetWrite 3, ms 300, ms 300⟩,
   ⟨.timeAfter, ms 400, ms 400⟩, ⟨.timeAfter, ms 500, ms 500⟩, ⟨.timeAfter, ms 600, ms 600⟩,
   ⟨.timeAfter, ms 700, ms 700⟩, ⟨.timeAfter, ms 800, ms 800⟩, ⟨.timeAfter, ms 900, ms 900⟩,
   ⟨.timeAfter, ms 1000, ms 1000⟩, ⟨.timeAfter, ms 1100, ms 1100⟩, ⟨.timeAfter, ms 1200, ms 1200⟩]

/-- The scenario up to its flush at 1100 ms, followed by one more normal result at
1150 ms. -/
def scenarioThenPush : List (Tick Nat) :=
  scenario.take 13 ++ [⟨Selected.targetWrite 4, ms 1150, ms 1150⟩]

/-- The successive readings of the clock in a run never decrease: `c` is the last reading
before the run, each wake-up reads `now` (line 82) and then `nowReset` (line 88). -/
def clockMonotone {R : Type} : Time → List (Tick R) → Prop
  | _, [] => True
  | c, t :: ts => c ≤ t.now ∧ t.now ≤ t.nowReset ∧ clockMonotone t.nowReset ts

/-- The observer of the scenario: a client, timeout 100 ms, report interval 1 s. -/
def scenarioObserver : Observer Nat := New true (ms 100) (ms 1000)

/-- The wake-ups of a quiet run: nothing is ever pushed and the loop is woken `n` times
by `time.After(o.timeout)`, at `start + timeout`, `start + 2 * timeout`, ...  Both clock
readings of a wake-up are the instant at which the timer fired. -/
def idleTicks {R : Type} (o : Observer R) (start : Time) (n : Nat) : List (Tick R) :=
  (List.range n).map fun i =>
    ⟨Selected.timeAfter, start + ((i : Int) + 1) * o.timeout, start + ((i : Int) + 1) * o.timeout⟩

/-- The instants (the reading of line 82) of the iterations of a run that flushed. -/
def flushTimes {R : Type} (o : Observer R) (s : LoopState R) : List (Tick R) → List Time
  | [] => []
  | t :: ts =>
    let out := iteration o s t
    (if (flushes out.effects).isEmpty then [] else [t.now]) ++
      (if out.stopped then [] else flushTimes o out.state ts)

/-- The heartbeat property for a quiet run of `n` wake-ups: every period of the given
length lying within the run contains a flush. -/
def heartbeatWithin {R : Type} (o : Observer R) (start : Time) (n : Nat) (period : Duration) :
    Prop :=
  ∀ a : Time, start ≤ a → a + period ≤ start + (n : Int) * o.timeout →
    ∃ f ∈ flushTimes o (loopEntry o start) (idleTicks o start n), a ≤ f ∧ f ≤ a + period

/-- The results of the entries carried by the normal channel (flag `false`), in order. -/
def normals {R : Type} (es : List (R × Bool)) : List R :=
  es.filterMap fun e => if e.2 then none else some e.1

/-- The results of the entries carried by the oversized channel (flag `true`), in order. -/
def oversizeds {R : Type} (es : List (R × Bool)) : List R :=
  es.filterMap fun e => if e.2 then some e.1 else none

/-- The entries held in the buffer of a goroutine. -/
def LoopPC.entries {R : Type} : LoopPC R → List (R × Bool)
  | LoopPC.selecting s => s.buffer.entries
  | _ => []

/-- The entries held in the buffers of the goroutines. -/
def liveEntries {R : Type} (w : World R) : List (R × Bool) :=
  w.loops.flatMap LoopPC.entries

/-- The entries of all buffers handed to `Send` so far. -/
def sentEntries {R : Type} (w : World R) : List (R × Bool) :=
  allEntries (sends w.effects)

/-- The results pushed through `TargetWrite` in a schedule, in order. -/
def pushedNormal {R : Type} (acts : List (Action R)) : List R :=
  acts.filterMap fun a => match a with
    | Action.targetWrite r => some r
    | _ => none

/-- The results pushed through `TargetWriteOversized` in a schedule, in order. -/
def pushedOversized {R : Type} (acts : List (Action R)) : List R :=
  acts.filterMap fun a => match a with
    | Action.targetWriteOversized r => some r
    | _ => none

/-- The lifecycle protocol driven by one caller: all goroutines but the last have
returned, and the flag, the caller and the last goroutine are in step. -/
inductive Lifecycle {R : Type} (w : World R) : Prop where
  | stopped (k : Nat) (hl : w.loops = List.replicate k LoopPC.finished)
      (hr : w.o.isRunning = false) (hc : w.caller = CallerPC.idle)
  | running (k : Nat) (l : LoopPC R) (hl : w.loops = List.replicate k LoopPC.finished ++ [l])
      (hlive : l = LoopPC.launched ∨ ∃ s, l = LoopPC.selecting s)
      (hr : w.o.isRunning = true)
      (hc : w.caller = CallerPC.idle ∨ w.caller = CallerPC.sendingExit)
  | stopping (k : Nat) (hl : w.loops = List.replicate k LoopPC.finished ++ [LoopPC.sendingDone])
      (hr : w.o.isRunning = false) (hc : w.caller = CallerPC.awaitingDone)

/-- The invariant of the schedules of an observer with a client: the lifecycle protocol
holds and every result pushed so far (`pn` through `TargetWrite`, `po` through
`TargetWriteOversized`) is in a buffer sent, in the buffer of the loop, or pending. -/
structure Accounted {R : Type} (w : World R) (pn po : List R) : Prop where
  client : w.o.statsClient = true
  life : Lifecycle w
  normal : normals (sentEntries w ++ liveEntries w) ++ w.o.targetWriteChan = pn
  oversized : oversizeds (sentEntries w ++ liveEntries w) ++ w.o.targetWriteOversizedChan = po

/-- An observer whose normal channel is full. -/
def fullWorld : World Nat :=
  { o := { (New true (ms 100) (ms 1000) : Observer Nat) with
           targetWriteChan := List.replicate 1000 0, isRunning := true }
    caller := CallerPC.idle
    loops := [LoopPC.selecting ⟨ms 1000, ObserverBuffer.empty⟩]
    effects := [] }

/-- A schedule in which `Stop` is called while a pushed result is still pending: the
goroutine created by `Start` reaches its `select` only after the push and the call of
`Stop`, and the `select` takes the exit case. -/
def earlyStop : List (Action Nat) :=
  [Action.callStart, Action.targetWrite 7, Action.callStop, Action.loopBegin 0 (ms 1),
   Action.loopSelect 0 SelectCase.exitSignal (ms 1) (ms 1), Action.loopDone 0]

/-- A schedule in which one result is merged before `Stop` and two are still pending when
the loop takes the exit case. -/
def stopWithPending : List (Action Nat) :=
  [Action.callStart, Action.targetWrite 7, Action.loopBegin 0 (ms 1),
   Action.loopSelect 0 SelectCase.targetWriteChan (ms 2) (ms 2),
   Action.targetWriteOversized 8, Action.targetWrite 9, Action.callStop,
   Action.loopSelect 0 SelectCase.exitSignal (ms 3) (ms 3), Action.loopDone 0]

/-- The world reached by `stopWithPending`. -/
def stopWithPendingEnd : World Nat :=
  { o := { (New true (ms 100) (ms 1000) : Observer Nat) with
           targetWriteChan := [9], targetWriteOversizedChan := [8] }
    caller := CallerPC.idle
    loops := [LoopPC.finished]
    effects := [Effect.warn Warning.receivedExitSignal, Effect.info ⟨[(7, false)]⟩,
                Effect.send BufferPtr.buffer ⟨[(7, false)]⟩] }

/-! ## Properties of one iteration and of runs of the loop -/

section LoopLemmas

variable {R : Type}

theorem sends_append (xs ys : List (Effect R)) : sends (xs ++ ys) = sends xs ++ sends ys := by
  induction xs with
  | nil => rfl
  | cons e es ih => cases e <;> simp [sends, ih]

theorem flushes_append (xs ys : List (Effect R)) :
    flushes (xs ++ ys) = flushes xs ++ flushes ys := by
  induction xs with
  | nil => rfl
  | cons e es ih => cases e <;> simp [flushes, ih]

theorem sends_flushEffects (o : Observer R) (b : ObserverBuffer R) :
    sends (flushEffects o b) = if o.statsClient then [b] else [] := by
  cases h : o.statsClient <;> simp [flushEffects, sends, h]

theorem flushes_flushEffects (o : Observer R) (b : ObserverBuffer R) :
    flushes (flushEffects o b) = [b] := by
  cases h : o.statsClient <;> simp [flushEffects, flushes, h]

theorem iteration_exit (o : Observer R) (s : LoopState R) (now nowReset : Time) :
    iteration o s ⟨Selected.exitSignal, now, nowReset⟩ =
      { state := s
        effects := Effect.warn Warning.receivedExitSignal :: flushEffects o s.buffer
        stopped := true } := rfl

theorem iteration_stopped (o : Observer R) (s : LoopState R) (t : Tick R) :
    (iteration o s t).stopped = true ↔ t.selected = Selected.exitSignal := by
  obtain ⟨sel, now, nowReset⟩ := t
  cases sel <;> simp [iteration, deadlineCheck] <;> split <;> simp

theorem iteration_not_stopped (o : Observer R) (s : LoopState R) (t : Tick R)
    (h : t.selected ≠ Selected.exitSignal) : (iteration o s t).stopped = false := by
  cases hs : (iteration o s t).stopped
  · rfl
  · exact absurd ((iteration_stopped o s t).1 hs) h

theorem deadlineCheck_pos (o : Observer R) (rt : Time) (buf : ObserverBuffer R)
    (now nowReset : Time) (h : now > rt) :
    deadlineCheck o ⟨rt, buf⟩ now nowReset =
      { state := { reportTime := nowReset + o.reportInterval, buffer := ObserverBuffer.empty }
        effects := flushEffects o buf
        stopped := false } := by
  unfold deadlineCheck; rw [if_pos h]

theorem deadlineCheck_neg (o : Observer R) (rt : Time) (buf : ObserverBuffer R)
    (now nowReset : Time) (h : ¬ now > rt) :
    deadlineCheck o ⟨rt, buf⟩ now nowReset =
      { state := ⟨rt, buf⟩, effects := [], stopped := false } := by
  unfold deadlineCheck; rw [if_neg h]

theorem iteration_state_flush (o : Observer R) (s : LoopState R) (t : Tick R)
    (h : t.selected ≠ Selected.exitSignal) (hd : t.now > s.reportTime) :
    (iteration o s t).state =
      { reportTime := t.nowReset + o.reportInterval, buffer := ObserverBuffer.empty } := by
  obtain ⟨sel, now, nowReset⟩ := t
  obtain ⟨rt, buf⟩ := s
  cases sel
  · exact absurd rfl h
  all_goals simp only [iteration]; rw [deadlineCheck_pos _ _ _ _ _ hd]

theorem iteration_state_keep (o : Observer R) (s : LoopState R) (t : Tick R)
    (h : t.selected ≠ Selected.exitSignal) (hd : ¬ t.now > s.reportTime) :
    (iteration o s t).state =
      { reportTime := s.reportTime, buffer := ⟨s.buffer.entries ++ merged t⟩ } := by
  obtain ⟨sel, now, nowReset⟩ := t
  obtain ⟨rt, buf⟩ := s
  cases sel
  · exact absurd rfl h
  all_goals simp only [iteration]; rw [deadlineCheck_neg _ _ _ _ _ hd]
  all_goals simp [merged, ObserverBuffer.Append]

theorem iteration_flushes (o : Observer R) (s : LoopState R) (t : Tick R)
    (h : t.selected ≠ Selected.exitSignal) :
    flushes (iteration o s t).effects =
      if t.now > s.reportTime then [⟨s.buffer.entries ++ merged t⟩] else [] := by
  obtain ⟨sel, now, nowReset⟩ := t
  obtain ⟨rt, buf⟩ := s
  by_cases hd : now > rt
  · rw [if_pos hd]
    cases sel
    · exact absurd rfl h
    all_goals simp only [iteration]; rw [deadlineCheck_pos _ _ _ _ _ hd]
    all_goals cases hc : o.statsClient <;>
      simp [flushes, flushEffects, merged, ObserverBuffer.Append, hc]
  · rw [if_neg hd]
    cases sel
    · exact absurd rfl h
    all_goals simp only [iteration]; rw [deadlineCheck_neg _ _ _ _ _ hd]
    all_goals simp [flushes]

theorem iteration_sends (o : Observer R) (s : LoopState R) (t : Tick R)
    (h : t.selected ≠ Selected.exitSignal) :
    sends (iteration o s t).effects =
      if t.now > s.reportTime ∧ o.statsClient = true then [⟨s.buffer.entries ++ merged t⟩]
      else [] := by
  obtain ⟨sel, now, nowReset⟩ := t
  obtain ⟨rt, buf⟩ := s
  by_cases hd : now > rt
  · cases sel
    · exact absurd rfl h
    all_goals simp only [iteration]; rw [deadlineCheck_pos _ _ _ _ _ hd]
    all_goals cases hc : o.statsClient <;>
      simp [sends, sends_flushEffects, merged, ObserverBuffer.Append, hc, hd]
  · rw [if_neg (fun hh => hd hh.1)]
    cases sel
    · exact absurd rfl h
    all_goals simp only [iteration]; rw [deadlineCheck_neg _ _ _ _ _ hd]
    all_goals simp [sends]

theorem runLoop_cons_of_ne (o : Observer R) (s : LoopState R) (t : Tick R) (ts : List (Tick R))
    (h : t.selected ≠ Selected.exitSignal) :
    runLoop o s (t :: ts) =
      { runLoop o (iteration o s t).state ts with
        effects := (iteration o s t).effects ++ (runLoop o (iteration o s t).state ts).effects } := by
  simp [runLoop, iteration_not_stopped o s t h]

theorem runLoop_cons_of_exit (o : Observer R) (s : LoopState R) (t : Tick R) (ts : List (Tick R))
    (h : t.selected = Selected.exitSignal) : runLoop o s (t :: ts) = iteration o s t := by
  simp [runLoop, (iteration_stopped o s t).2 h]

theorem runLoop_append (o : Observer R) (s : LoopState R) (pre post : List (Tick R))
    (h : ∀ t ∈ pre, t.selected ≠ Selected.exitSignal) :
    runLoop o s (pre ++ post) =
      { runLoop o (runLoop o s pre).state post with
        effects := (runLoop o s pre).effects ++ (runLoop o (runLoop o s pre).state post).effects } := by
  induction pre generalizing s with
  | nil => simp [runLoop]
  | cons t ts ih =>
    have ht : t.selected ≠ Selected.exitSignal := h t (List.mem_cons_self _ _)
    have hts : ∀ x ∈ ts, x.selected ≠ Selected.exitSignal :=
      fun x hx => h x (List.mem_cons_of_mem _ hx)
    rw [List.cons_append, runLoop_cons_of_ne o s t _ ht, runLoop_cons_of_ne o s t _ ht, ih _ hts]
    simp

theorem runLoop_snoc (o : Observer R) (s : LoopState R) (pre : List (Tick R)) (t : Tick R)
    (h : ∀ x ∈ pre, x.selected ≠ Selected.exitSignal) :
    runLoop o s (pre ++ [t]) =
      { iteration o (runLoop o s pre).state t with
        effects := (runLoop o s pre).effects ++ (iteration o (runLoop o s pre).state t).effects } := by
  rw [runLoop_append o s pre [t] h]
  by_cases ht : t.selected = Selected.exitSignal
  · rw [runLoop_cons_of_exit _ _ _ _ ht]
  · rw [runLoop_cons_of_ne _ _ _ _ ht]; simp [runLoop, iteration_not_stopped _ _ _ ht]

/-- Effects of one iteration with a nil client are those with a client, `Send` removed. -/
theorem iteration_nil_client (o : Observer R) (s : LoopState R) (t : Tick R) :
    (iteration { o with statsClient := false } s t).state
        = (iteration { o with statsClient := true } s t).state ∧
    (iteration { o with statsClient := false } s t).stopped
        = (iteration { o with statsClient := true } s t).stopped ∧
    (iteration { o with statsClient := false } s t).effects
        = (iteration { o with statsClient := true } s t).effects.filter (fun e => !e.isSend) := by
  obtain ⟨sel, now, nowReset⟩ := t
  obtain ⟨rt, buf⟩ := s
  by_cases hd : now > rt
  · cases sel
    · simp [iteration, flushEffects, Effect.isSend]
    all_goals simp only [iteration]; rw [deadlineCheck_pos _ _ _ _ _ hd, deadlineCheck_pos _ _ _ _ _ hd]
    all_goals simp [flushEffects, Effect.isSend]
  · cases sel
    · simp [iteration, flushEffects, Effect.isSend]
    all_goals simp only [iteration]; rw [deadlineCheck_neg _ _ _ _ _ hd, deadlineCheck_neg _ _ _ _ _ hd]
    all_goals simp [Effect.isSend]

theorem runLoop_nil_client (o : Observer R) (s : LoopState R) (ticks : List (Tick R)) :
    (runLoop { o with statsClient := false } s ticks).state
        = (runLoop { o with statsClient := true } s ticks).state ∧
    (runLoop { o with statsClient := false } s ticks).stopped
        = (runLoop { o with statsClient := true } s ticks).stopped ∧
    (runLoop { o with statsClient := false } s ticks).effects
        = (runLoop { o with statsClient := true } s ticks).effects.filter (fun e => !e.isSend) := by
  induction ticks generalizing s with
  | nil => simp [runLoop]
  | cons t ts ih =>
    obtain ⟨h1, h2, h3⟩ := iteration_nil_client o s t
    by_cases ht : t.selected = Selected.exitSignal
    · rw [runLoop_cons_of_exit _ _ _ _ ht, runLoop_cons_of_exit _ _ _ _ ht]
      exact ⟨h1, h2, h3⟩
    · rw [runLoop_cons_of_ne _ _ _ _ ht, runLoop_cons_of_ne _ _ _ _ ht]
      obtain ⟨g1, g2, g3⟩ := ih (iteration { o with statsClient := true } s t).state
      simp only [h1, h3, g1, g2, g3, List.filter_append]
      exact ⟨trivial, trivial, trivial⟩

theorem isSend_warn (w : Warning) : (Effect.warn w : Effect R).isSend = false := rfl

theorem isSend_info (b : ObserverBuffer R) : (Effect.info b).isSend = false := rfl

theorem isSend_debug (d : Duration) : (Effect.debug d : Effect R).isSend = false := rfl

theorem isSend_send (p : BufferPtr) (b : ObserverBuffer R) :
    (Effect.send p b).isSend = true := rfl

theorem sends_filter_not_isSend (es : List (Effect R)) :
    sends (es.filter (fun e => !e.isSend)) = [] := by
  induction es with
  | nil => rfl
  | cons e es ih =>
    cases e <;>
      simp [List.filter_cons, isSend_warn, isSend_info, isSend_debug, isSend_send, sends, ih]

theorem flushes_filter_not_isSend (es : List (Effect R)) :
    flushes (es.filter (fun e => !e.isSend)) = flushes es := by
  induction es with
  | nil => rfl
  | cons e es ih =>
    cases e <;>
      simp [List.filter_cons, isSend_warn, isSend_info, isSend_debug, isSend_send, flushes, ih]

theorem iteration_reportTime_keep (o : Observer R) (s : LoopState R) (t : Tick R)
    (h : ¬ deadlineFlush s t) : (iteration o s t).state.reportTime = s.reportTime := by
  by_cases ht : t.selected = Selected.exitSignal
  · obtain ⟨sel, now, nowReset⟩ := t
    simp only at ht
    subst ht
    rw [iteration_exit]
  · have hd : ¬ t.now > s.reportTime := fun hd => h ⟨ht, hd⟩
    rw [iteration_state_keep o s t ht hd]

theorem clockMonotone_le (c : Time) (ticks : List (Tick R)) (h : clockMonotone c ticks) :
    ∀ t ∈ ticks, c ≤ t.now ∧ t.now ≤ t.nowReset := by
  induction ticks generalizing c with
  | nil => intro t ht; cases ht
  | cons p ps ih =>
    obtain ⟨h1, h2, h3⟩ := h
    intro t ht
    rcases List.mem_cons.1 ht with rfl | hmem
    · exact ⟨h1, h2⟩
    · obtain ⟨g1, g2⟩ := ih _ h3 t hmem
      exact ⟨le_trans (le_trans h1 h2) g1, g2⟩

/-- The deadline never exceeds the last clock reading plus the report interval. -/
theorem reportTime_le_now (o : Observer R) (s : LoopState R) (c : Time) (ticks : List (Tick R))
    (hinv : s.reportTime ≤ c + o.reportInterval) (hclock : clockMonotone c ticks) :
    ∀ (pre : List (Tick R)) (t : Tick R) (post : List (Tick R)), ticks = pre ++ t :: post →
      (runLoop o s pre).state.reportTime ≤ t.now + o.reportInterval := by
  intro pre
  induction pre generalizing s c ticks with
  | nil =>
    intro t post heq
    subst heq
    have := hclock.1
    simp only [runLoop]
    linarith
  | cons p ps ih =>
    intro t post heq
    subst heq
    obtain ⟨h1, h2, h3⟩ := hclock
    by_cases hp : p.selected = Selected.exitSignal
    · rw [runLoop_cons_of_exit _ _ _ _ hp]
      have hst : (iteration o s p).state = s := by
        obtain ⟨sel, now, nowReset⟩ := p
        simp only at hp
        subst hp
        rw [iteration_exit]
      rw [hst]
      have := (clockMonotone_le _ _ h3 t (by simp)).1
      linarith
    · rw [runLoop_cons_of_ne _ _ _ _ hp]
      refine ih (iteration o s p).state p.nowReset (ps ++ t :: post) ?_ h3 t post rfl
      by_cases hd : p.now > s.reportTime
      · rw [iteration_state_flush o s p hp hd]
      · rw [iteration_state_keep o s p hp hd]
        show s.reportTime ≤ p.nowReset + o.reportInterval
        linarith

theorem allEntries_append (xs ys : List (ObserverBuffer R)) :
    allEntries (xs ++ ys) = allEntries xs ++ allEntries ys := by
  induction xs with
  | nil => rfl
  | cons b bs ih => simp [allEntries, ih]

/-- One iteration neither loses nor duplicates an entry: what is sent plus what is kept is
what was held plus what was merged. -/
theorem iteration_conserve (o : Observer R) (hc : o.statsClient = true) (s : LoopState R)
    (t : Tick R) (h : t.selected ≠ Selected.exitSignal) :
    allEntries (sends (iteration o s t).effects) ++ (iteration o s t).state.buffer.entries
      = s.buffer.entries ++ merged t := by
  rw [iteration_sends o s t h]
  by_cases hd : t.now > s.reportTime
  · rw [iteration_state_flush o s t h hd, if_pos ⟨hd, hc⟩]
    simp [allEntries, ObserverBuffer.empty]
  · rw [iteration_state_keep o s t h hd, if_neg (fun hh => hd hh.1)]
    simp [allEntries]

theorem runLoop_conserve (o : Observer R) (hc : o.statsClient = true) (s : LoopState R)
    (ticks : List (Tick R)) (hne : ∀ t ∈ ticks, t.selected ≠ Selected.exitSignal) :
    allEntries (sends (runLoop o s ticks).effects) ++ (runLoop o s ticks).state.buffer.entries
      = s.buffer.entries ++ ticks.flatMap merged := by
  induction ticks generalizing s with
  | nil => simp [runLoop, sends, allEntries]
  | cons t ts ih =>
    have ht : t.selected ≠ Selected.exitSignal := hne t (List.mem_cons_self _ _)
    have hts : ∀ x ∈ ts, x.selected ≠ Selected.exitSignal :=
      fun x hx => hne x (List.mem_cons_of_mem _ hx)
    rw [runLoop_cons_of_ne _ _ _ _ ht]
    simp only [sends_append, allEntries_append, List.flatMap_cons, List.append_assoc]
    rw [ih _ hts, ← List.append_assoc, iteration_conserve o hc s t ht, List.append_assoc]

/-- The buffer held after a run is what was merged since the last point at which it was
empty with the same buffers sent. -/
theorem runLoop_since_empty (o : Observer R) (s : LoopState R)
    (hs : s.buffer = ObserverBuffer.empty)
    (ticks : List (Tick R)) (hne : ∀ t ∈ ticks, t.selected ≠ Selected.exitSignal) :
    ∃ pre seg : List (Tick R), ticks = pre ++ seg ∧
      (runLoop o s pre).state.buffer = ObserverBuffer.empty ∧
      sends (runLoop o s pre).effects = sends (runLoop o s ticks).effects ∧
      (runLoop o s ticks).state.buffer.entries = seg.flatMap merged := by
  induction ticks using List.reverseRecOn with
  | nil => exact ⟨[], [], rfl, by simpa [runLoop] using hs, rfl, by simp [runLoop, hs, ObserverBuffer.empty]⟩
  | append_singleton init t ih =>
    have hinit : ∀ x ∈ init, x.selected ≠ Selected.exitSignal :=
      fun x hx => hne x (List.mem_append_left _ hx)
    have ht : t.selected ≠ Selected.exitSignal := hne t (by simp)
    by_cases hd : t.now > (runLoop o s init).state.reportTime
    · refine ⟨init ++ [t], [], by simp, ?_, rfl, ?_⟩
      · rw [runLoop_snoc o s init t hinit]
        simp only
        rw [iteration_state_flush o _ t ht hd]
      · rw [runLoop_snoc o s init t hinit]
        simp only
        rw [iteration_state_flush o _ t ht hd]
        simp [ObserverBuffer.empty]
    · obtain ⟨pre, seg, heq, h1, h2, h3⟩ := ih hinit
      refine ⟨pre, seg ++ [t], by rw [heq, List.append_assoc], h1, ?_, ?_⟩
      · rw [runLoop_snoc o s init t hinit]
        simp only [sends_append]
        rw [iteration_sends o _ t ht, if_neg (fun hh => hd hh.1), h2]
        simp
      · rw [runLoop_snoc o s init t hinit]
        simp only
        rw [iteration_state_keep o _ t ht hd]
        simp [h3]

/-- Every pointer handed to `Send` designates the variable `buffer` of the loop. -/
theorem heldBuffers_eq (es : List (Effect R)) (s : LoopState R) :
    heldBuffers es s = List.replicate (sends es).length s.buffer := by
  induction es with
  | nil => rfl
  | cons e es ih =>
    cases e with
    | send p b =>
      cases p
      simp only [heldBuffers, sentPtrs, sends, List.map_cons, List.length_cons,
        List.replicate_succ, BufferPtr.deref] at ih ⊢
      rw [ih]
    | warn w => simpa [heldBuffers, sentPtrs, sends] using ih
    | info b => simpa [heldBuffers, sentPtrs, sends] using ih
    | debug d => simpa [heldBuffers, sentPtrs, sends] using ih

/-- When nothing was sent since the buffer was last empty, the buffer holds what was
merged since. -/
theorem runLoop_buffer_since (o : Observer R) (hc : o.statsClient = true) (s : LoopState R)
    (pre post : List (Tick R)) (hne : ∀ t ∈ pre ++ post, t.selected ≠ Selected.exitSignal)
    (hempty : (runLoop o s pre).state.buffer = ObserverBuffer.empty)
    (hsame : sends (runLoop o s (pre ++ post)).effects = sends (runLoop o s pre).effects) :
    (runLoop o s (pre ++ post)).state.buffer = ⟨post.flatMap merged⟩ := by
  have hpre : ∀ x ∈ pre, x.selected ≠ Selected.exitSignal :=
    fun x hx => hne x (List.mem_append_left _ hx)
  have hpost : ∀ x ∈ post, x.selected ≠ Selected.exitSignal :=
    fun x hx => hne x (List.mem_append_right _ hx)
  rw [runLoop_append o s pre post hpre] at hsame ⊢
  simp only [sends_append] at hsame
  have hs : sends (runLoop o (runLoop o s pre).state post).effects = [] := by
    have := congrArg List.length hsame
    simp only [List.length_append] at this
    exact List.length_eq_zero.1 (by omega)
  have hcons := runLoop_conserve o hc (runLoop o s pre).state post hpost
  rw [hs, hempty] at hcons
  simp only [allEntries, ObserverBuffer.empty, List.nil_append] at hcons
  show (runLoop o (runLoop o s pre).state post).state.buffer = ⟨post.flatMap merged⟩
  rw [← hcons]

/-- The `k`-th buffer sent holds the entries merged since the previous flush. -/
theorem runLoop_kth_send (o : Observer R) (hc : o.statsClient = true) (s : LoopState R)
    (hs : s.buffer = ObserverBuffer.empty)
    (ticks : List (Tick R)) (hne : ∀ t ∈ ticks, t.selected ≠ Selected.exitSignal)
    (k : Nat) (buf : ObserverBuffer R)
    (hk : (sends (runLoop o s ticks).effects)[k]? = some buf) :
    ∃ (pre seg : List (Tick R)) (t : Tick R) (post : List (Tick R)),
      ticks = pre ++ seg ++ t :: post ∧
      (sends (runLoop o s pre).effects).length = k ∧
      (runLoop o s pre).state.buffer = ObserverBuffer.empty ∧
      sends (runLoop o s (pre ++ seg)).effects = sends (runLoop o s pre).effects ∧
      deadlineFlush (runLoop o s (pre ++ seg)).state t ∧
      buf.entries = (seg ++ [t]).flatMap merged ∧
      sends (runLoop o s (pre ++ seg ++ [t])).effects = sends (runLoop o s pre).effects ++ [buf] ∧
      (runLoop o s (pre ++ seg ++ [t])).state.buffer = ObserverBuffer.empty := by
  induction ticks using List.reverseRecOn with
  | nil => simp [runLoop, sends] at hk
  | append_singleton init t ih =>
    have hinit : ∀ x ∈ init, x.selected ≠ Selected.exitSignal :=
      fun x hx => hne x (List.mem_append_left _ hx)
    have ht : t.selected ≠ Selected.exitSignal := hne t (by simp)
    rw [runLoop_snoc o s init t hinit] at hk
    simp only [sends_append] at hk
    by_cases hlt : k < (sends (runLoop o s init).effects).length
    · rw [List.getElem?_append_left hlt] at hk
      obtain ⟨pre, seg, t1, post, heq, h1, h2, h3, h4, h5, h6, h7⟩ := ih hinit hk
      exact ⟨pre, seg, t1, post ++ [t], by rw [heq]; simp, h1, h2, h3, h4, h5, h6, h7⟩
    · rw [List.getElem?_append_right (Nat.le_of_not_lt hlt), iteration_sends o _ t ht] at hk
      by_cases hd : t.now > (runLoop o s init).state.reportTime
      · rw [if_pos ⟨hd, hc⟩] at hk
        have hk0 : k - (sends (runLoop o s init).effects).length = 0 := by
          by_contra hne0
          obtain ⟨m, hm⟩ := Nat.exists_eq_succ_of_ne_zero hne0
          rw [hm] at hk
          simp at hk
        rw [hk0] at hk
        simp at hk
        obtain ⟨pre, seg, heq, h1, h2, h3⟩ := runLoop_since_empty o s hs init hinit
        have hsnoc : sends (runLoop o s (init ++ [t])).effects
            = sends (runLoop o s init).effects ++ [buf] := by
          rw [runLoop_snoc o s init t hinit]
          simp only [sends_append]
          rw [iteration_sends o _ t ht, if_pos ⟨hd, hc⟩, hk]
        have hbuf : (runLoop o s (init ++ [t])).state.buffer = ObserverBuffer.empty := by
          rw [runLoop_snoc o s init t hinit]
          simp only
          rw [iteration_state_flush o _ t ht hd]
        refine ⟨pre, seg, t, [], by rw [heq], ?_, h1, ?_, ?_, ?_, ?_, ?_⟩
        · rw [h2]; omega
        · rw [← heq, h2]
        · rw [← heq]; exact ⟨ht, hd⟩
        · rw [← hk]; simp [h3]
        · rw [← heq, h2]; exact hsnoc
        · rw [← heq]; exact hbuf
      · rw [if_neg (fun hh => hd hh.1)] at hk
        simp at hk

end LoopLemmas

/-! ## Quiet runs -/

section IdleLemmas

variable {R : Type}

theorem flushTimes_append (o : Observer R) (s : LoopState R) (pre post : List (Tick R))
    (h : ∀ t ∈ pre, t.selected ≠ Selected.exitSignal) :
    flushTimes o s (pre ++ post) =
      flushTimes o s pre ++ flushTimes o (runLoop o s pre).state post := by
  induction pre generalizing s with
  | nil => simp [flushTimes, runLoop]
  | cons t ts ih =>
    have ht : t.selected ≠ Selected.exitSignal := h t (List.mem_cons_self _ _)
    have hts : ∀ x ∈ ts, x.selected ≠ Selected.exitSignal :=
      fun x hx => h x (List.mem_cons_of_mem _ hx)
    rw [List.cons_append, runLoop_cons_of_ne o s t _ ht]
    simp only [flushTimes, iteration_not_stopped o s t ht]
    rw [ih _ hts]
    simp

theorem flushTimes_single (o : Observer R) (s : LoopState R) (t : Tick R)
    (h : t.selected ≠ Selected.exitSignal) :
    flushTimes o s [t] = if t.now > s.reportTime then [t.now] else [] := by
  simp only [flushTimes, iteration_not_stopped o s t h, iteration_flushes o s t h]
  by_cases hd : t.now > s.reportTime <;> simp [hd]

theorem idleTicks_succ (o : Observer R) (start : Time) (n : Nat) :
    idleTicks o start (n + 1) = idleTicks o start n ++
      [⟨Selected.timeAfter, start + ((n : Int) + 1) * o.timeout,
        start + ((n : Int) + 1) * o.timeout⟩] := by
  simp [idleTicks, List.range_succ]

theorem idleTicks_ne_exit (o : Observer R) (start : Time) (n : Nat) :
    ∀ t ∈ idleTicks o start n, t.selected ≠ Selected.exitSignal := by
  intro t ht
  simp only [idleTicks, List.mem_map] at ht
  obtain ⟨i, _, rfl⟩ := ht
  simp

theorem idleTicks_split (o : Observer R) (start : Time) (i n : Nat) (h : i ≤ n) :
    ∃ rest : List (Tick R), idleTicks o start n = idleTicks o start i ++ rest := by
  induction n with
  | zero =>
    have : i = 0 := Nat.le_zero.1 h
    subst this
    exact ⟨[], by simp⟩
  | succ m ih =>
    by_cases hi : i = m + 1
    · subst hi; exact ⟨[], by simp⟩
    · obtain ⟨rest, hrest⟩ := ih (by omega)
      exact ⟨rest ++ [⟨Selected.timeAfter, start + ((m : Int) + 1) * o.timeout,
        start + ((m : Int) + 1) * o.timeout⟩], by rw [idleTicks_succ, hrest, List.append_assoc]⟩

/-- After `i` idle wake-ups the deadline is the initial one or was set by a recorded flush,
the last wake-up is not past it, and no flush is later than the last wake-up. -/
theorem idle_invariant (o : Observer R) (start : Time) (hT : 0 ≤ o.timeout)
    (hRI : 0 ≤ o.reportInterval) (i : Nat) :
    ((runLoop o (loopEntry o start) (idleTicks o start i)).state.reportTime
        = start + o.reportInterval ∨
      ∃ f ∈ flushTimes o (loopEntry o start) (idleTicks o start i),
        (runLoop o (loopEntry o start) (idleTicks o start i)).state.reportTime
          = f + o.reportInterval) ∧
    start + (i : Int) * o.timeout
      ≤ (runLoop o (loopEntry o start) (idleTicks o start i)).state.reportTime ∧
    ∀ f ∈ flushTimes o (loopEntry o start) (idleTicks o start i),
      f ≤ start + (i : Int) * o.timeout := by
  induction i with
  | zero =>
    refine ⟨Or.inl rfl, ?_, ?_⟩
    · show start + ((0 : Nat) : Int) * o.timeout ≤ start + o.reportInterval
      simp only [Nat.cast_zero, zero_mul, add_zero]
      linarith
    · intro f hf
      simp [idleTicks, flushTimes] at hf
  | succ m ih =>
    obtain ⟨ha, hb, hc⟩ := ih
    have hne := idleTicks_ne_exit o start m
    have hcast : ((m + 1 : Nat) : Int) * o.timeout = (m : Int) * o.timeout + o.timeout := by
      push_cast; ring
    have htick : start + ((m : Int) + 1) * o.timeout = start + (m : Int) * o.timeout + o.timeout := by
      ring
    rw [idleTicks_succ, flushTimes_append o _ _ _ hne, runLoop_snoc o _ _ _ hne,
      flushTimes_single o _ _ (by simp)]
    simp only
    by_cases hd : start + ((m : Int) + 1) * o.timeout
        > (runLoop o (loopEntry o start) (idleTicks o start m)).state.reportTime
    · rw [iteration_state_flush o _ _ (by simp) hd, if_pos hd]
      refine ⟨Or.inr ⟨_, by simp, rfl⟩, ?_, ?_⟩
      · show _ ≤ start + ((m : Int) + 1) * o.timeout + o.reportInterval
        rw [hcast]; linarith
      · intro f hf
        rcases List.mem_append.1 hf with h1 | h1
        · have := hc f h1
          rw [hcast]; linarith
        · simp only [List.mem_singleton] at h1
          rw [h1, hcast]; linarith
    · rw [iteration_state_keep o _ _ (by simp) hd, if_neg hd]
      simp only [List.append_nil]
      refine ⟨ha, ?_, ?_⟩
      · rw [hcast]
        have := not_lt.1 hd
        linarith
      · intro f hf
        have := hc f hf
        rw [hcast]; linarith

/-- Every instant of a run of `n` wake-ups lies between two consecutive wake-ups. -/
theorem wake_before (start T : Int) (hT : 0 < T) (n : Nat) (x : Int) (h1 : start ≤ x)
    (h2 : x ≤ start + (n : Int) * T) :
    ∃ i : Nat, i ≤ n ∧ start + (i : Int) * T ≤ x ∧ x < start + (i : Int) * T + T := by
  induction n with
  | zero =>
    refine ⟨0, le_refl _, ?_, ?_⟩ <;> simp at h2 ⊢ <;> linarith
  | succ m ih =>
    have hcast : ((m + 1 : Nat) : Int) * T = (m : Int) * T + T := by push_cast; ring
    by_cases hx : x ≤ start + (m : Int) * T
    · obtain ⟨i, hi, g1, g2⟩ := ih hx
      exact ⟨i, by omega, g1, g2⟩
    · by_cases he : x = start + ((m + 1 : Nat) : Int) * T
      · exact ⟨m + 1, le_refl _, by rw [he], by rw [he]; linarith⟩
      · refine ⟨m, by omega, by linarith, ?_⟩
        rw [hcast] at h2 he
        exact lt_of_le_of_ne (by linarith) (by intro hh; exact he (by linarith))

end IdleLemmas

/-! ## Schedules -/

section WorldLemmas

variable {R : Type}

theorem receive_some (w : World R) (c : SelectCase) (sel : Selected R) (w1 : World R)
    (h : receive w c = some (sel, w1)) :
    (c = SelectCase.exitSignal ∧ w.caller = CallerPC.sendingExit ∧ sel = Selected.exitSignal ∧
      w1 = { w with caller := CallerPC.awaitingDone }) ∨
    (c = SelectCase.targetWriteChan ∧ ∃ r q, w.o.targetWriteChan = r :: q ∧
      sel = Selected.targetWrite r ∧ w1 = { w with o := { w.o with targetWriteChan := q } }) ∨
    (c = SelectCase.targetWriteOversizedChan ∧ ∃ r q, w.o.targetWriteOversizedChan = r :: q ∧
      sel = Selected.targetWriteOversized r ∧
      w1 = { w with o := { w.o with targetWriteOversizedChan := q } }) ∨
    (c = SelectCase.timeAfter ∧ sel = Selected.timeAfter ∧ w1 = w) := by
  cases c with
  | exitSignal =>
    by_cases hc : w.caller = CallerPC.sendingExit
    · simp [receive, hc] at h
      exact Or.inl ⟨rfl, hc, h.1.symm, h.2.symm⟩
    · simp [receive, hc] at h
  | targetWriteChan =>
    cases hq : w.o.targetWriteChan with
    | nil => simp [receive, hq] at h
    | cons r q =>
      simp [receive, hq] at h
      exact Or.inr (Or.inl ⟨rfl, r, q, rfl, h.1.symm, h.2.symm⟩)
  | targetWriteOversizedChan =>
    cases hq : w.o.targetWriteOversizedChan with
    | nil => simp [receive, hq] at h
    | cons r q =>
      simp [receive, hq] at h
      exact Or.inr (Or.inr (Or.inl ⟨rfl, r, q, rfl, h.1.symm, h.2.symm⟩))
  | timeAfter =>
    simp [receive] at h
    exact Or.inr (Or.inr (Or.inr ⟨rfl, h.1.symm, h.2.symm⟩))

theorem loopSelect_some (w : World R) (i : Nat) (c : SelectCase) (now nowReset : Time)
    (w2 : World R) (h : loopSelect w i c now nowReset = some w2) :
    ∃ (s : LoopState R) (sel : Selected R) (w1 : World R),
      w.loops[i]? = some (LoopPC.selecting s) ∧ receive w c = some (sel, w1) ∧
      w2 = { w1 with
        o := { w1.o with
          isRunning := if (iteration w1.o s ⟨sel, now, nowReset⟩).stopped then false
                       else w1.o.isRunning }
        loops := w1.loops.set i
          (if (iteration w1.o s ⟨sel, now, nowReset⟩).stopped then LoopPC.sendingDone
           else LoopPC.selecting (iteration w1.o s ⟨sel, now, nowReset⟩).state)
        effects := w1.effects ++ (iteration w1.o s ⟨sel, now, nowReset⟩).effects } := by
  unfold loopSelect at h
  split at h
  · rename_i s hs
    split at h
    · cases h
    · rename_i sel w1 hr
      exact ⟨s, sel, w1, hs, hr, (Option.some.inj h).symm⟩
  · cases h

theorem loopBegin_some (w : World R) (i : Nat) (now : Time) (w2 : World R)
    (h : loopBegin w i now = some w2) :
    w.loops[i]? = some LoopPC.launched ∧
    w2 = { w with loops := w.loops.set i (LoopPC.selecting (loopEntry w.o now)) } := by
  unfold loopBegin at h
  split at h
  · rename_i hs
    exact ⟨hs, (Option.some.inj h).symm⟩
  · cases h

theorem loopDone_some (w : World R) (i : Nat) (w2 : World R) (h : loopDone w i = some w2) :
    w.loops[i]? = some LoopPC.sendingDone ∧ w.caller = CallerPC.awaitingDone ∧
    w2 = { w with caller := CallerPC.idle, loops := w.loops.set i LoopPC.finished } := by
  unfold loopDone at h
  split at h
  · rename_i hs
    by_cases hc : w.caller = CallerPC.awaitingDone
    · rw [if_pos hc] at h
      exact ⟨hs, hc, (Option.some.inj h).symm⟩
    · rw [if_neg hc] at h; cases h
  · cases h

theorem chanSend_some (capacity : Nat) (chan : List R) (r : R) (q : List R)
    (h : chanSend capacity chan r = some q) : chan.length < capacity ∧ q = chan ++ [r] := by
  unfold chanSend at h
  by_cases hc : chan.length < capacity
  · rw [if_pos hc] at h; exact ⟨hc, (Option.some.inj h).symm⟩
  · rw [if_neg hc] at h; cases h

theorem TargetWrite_some (w : World R) (r : R) (w2 : World R) (h : TargetWrite w r = some w2) :
    w.o.targetWriteChan.length < chanCapacity ∧
    w2 = { w with o := { w.o with targetWriteChan := w.o.targetWriteChan ++ [r] } } := by
  unfold TargetWrite at h
  cases hq : chanSend chanCapacity w.o.targetWriteChan r with
  | none => rw [hq] at h; cases h
  | some q =>
    rw [hq] at h
    obtain ⟨h1, h2⟩ := chanSend_some _ _ _ _ hq
    subst h2
    exact ⟨h1, (Option.some.inj h).symm⟩

theorem TargetWriteOversized_some (w : World R) (r : R) (w2 : World R)
    (h : TargetWriteOversized w r = some w2) :
    w.o.targetWriteOversizedChan.length < chanCapacity ∧
    w2 = { w with o := { w.o with
      targetWriteOversizedChan := w.o.targetWriteOversizedChan ++ [r] } } := by
  unfold TargetWriteOversized at h
  cases hq : chanSend chanCapacity w.o.targetWriteOversizedChan r with
  | none => rw [hq] at h; cases h
  | some q =>
    rw [hq] at h
    obtain ⟨h1, h2⟩ := chanSend_some _ _ _ _ hq
    subst h2
    exact ⟨h1, (Option.some.inj h).symm⟩

/-- How one step changes the normal channel: not at all, by a push at the tail when there
is room, or by the loop taking the head. -/
theorem step_targetWriteChan (w : World R) (a : Action R) (w2 : World R)
    (h : step w a = some w2) :
    (w2.o.targetWriteChan = w.o.targetWriteChan ∧ (∀ r, a ≠ Action.targetWrite r)) ∨
    (∃ r, a = Action.targetWrite r ∧ w.o.targetWriteChan.length < chanCapacity ∧
      w2.o.targetWriteChan = w.o.targetWriteChan ++ [r]) ∨
    (∃ i now nowReset r, a = Action.loopSelect i SelectCase.targetWriteChan now nowReset ∧
      w.o.targetWriteChan = r :: w2.o.targetWriteChan) := by
  cases a with
  | callStart =>
    by_cases hc : w.caller = CallerPC.idle
    · simp only [step, if_pos hc, Option.some.injEq] at h
      subst h
      refine Or.inl ⟨?_, by simp⟩
      cases hr : w.o.isRunning <;> simp [Start, hr]
    · simp [step, hc] at h
  | callStop =>
    by_cases hc : w.caller = CallerPC.idle
    · simp only [step, if_pos hc, Option.some.injEq] at h
      subst h
      refine Or.inl ⟨?_, by simp⟩
      cases hr : w.o.isRunning <;> simp [Stop, hr]
    · simp [step, hc] at h
  | targetWrite r =>
    obtain ⟨h1, h2⟩ := TargetWrite_some w r w2 h
    subst h2
    exact Or.inr (Or.inl ⟨r, rfl, h1, rfl⟩)
  | targetWriteOversized r =>
    obtain ⟨_, h2⟩ := TargetWriteOversized_some w r w2 h
    subst h2
    exact Or.inl ⟨rfl, by simp⟩
  | loopBegin i now =>
    obtain ⟨_, h2⟩ := loopBegin_some w i now w2 h
    subst h2
    exact Or.inl ⟨rfl, by simp⟩
  | loopSelect i c now nowReset =>
    obtain ⟨s, sel, w1, _, hr, h2⟩ := loopSelect_some w i c now nowReset w2 h
    subst h2
    rcases receive_some w c sel w1 hr with ⟨_, _, _, rfl⟩ | ⟨rfl, r, q, hq, _, rfl⟩ |
      ⟨_, r, q, _, _, rfl⟩ | ⟨_, _, rfl⟩
    · exact Or.inl ⟨rfl, by simp⟩
    · exact Or.inr (Or.inr ⟨i, now, nowReset, r, rfl, hq⟩)
    · exact Or.inl ⟨rfl, by simp⟩
    · exact Or.inl ⟨rfl, by simp⟩
  | loopDone i =>
    obtain ⟨_, _, h2⟩ := loopDone_some w i w2 h
    subst h2
    exact Or.inl ⟨rfl, by simp⟩

/-- How one step changes the oversized channel. -/
theorem step_targetWriteOversizedChan (w : World R) (a : Action R) (w2 : World R)
    (h : step w a = some w2) :
    (w2.o.targetWriteOversizedChan = w.o.targetWriteOversizedChan ∧
      (∀ r, a ≠ Action.targetWriteOversized r)) ∨
    (∃ r, a = Action.targetWriteOversized r ∧
      w.o.targetWriteOversizedChan.length < chanCapacity ∧
      w2.o.targetWriteOversizedChan = w.o.targetWriteOversizedChan ++ [r]) ∨
    (∃ i now nowReset r,
      a = Action.loopSelect i SelectCase.targetWriteOversizedChan now nowReset ∧
      w.o.targetWriteOversizedChan = r :: w2.o.targetWriteOversizedChan) := by
  cases a with
  | callStart =>
    by_cases hc : w.caller = CallerPC.idle
    · simp only [step, if_pos hc, Option.some.injEq] at h
      subst h
      refine Or.inl ⟨?_, by simp⟩
      cases hr : w.o.isRunning <;> simp [Start, hr]
    · simp [step, hc] at h
  | callStop =>
    by_cases hc : w.caller = CallerPC.idle
    · simp only [step, if_pos hc, Option.some.injEq] at h
      subst h
      refine Or.inl ⟨?_, by simp⟩
      cases hr : w.o.isRunning <;> simp [Stop, hr]
    · simp [step, hc] at h
  | targetWrite r =>
    obtain ⟨_, h2⟩ := TargetWrite_some w r w2 h
    subst h2
    exact Or.inl ⟨rfl, by simp⟩
  | targetWriteOversized r =>
    obtain ⟨h1, h2⟩ := TargetWriteOversized_some w r w2 h
    subst h2
    exact Or.inr (Or.inl ⟨r, rfl, h1, rfl⟩)
  | loopBegin i now =>
    obtain ⟨_, h2⟩ := loopBegin_some w i now w2 h
    subst h2
    exact Or.inl ⟨rfl, by simp⟩
  | loopSelect i c now nowReset =>
    obtain ⟨s, sel, w1, _, hr, h2⟩ := loopSelect_some w i c now nowReset w2 h
    subst h2
    rcases receive_some w c sel w1 hr with ⟨_, _, _, rfl⟩ | ⟨_, r, q, _, _, rfl⟩ |
      ⟨rfl, r, q, hq, _, rfl⟩ | ⟨_, _, rfl⟩
    · exact Or.inl ⟨rfl, by simp⟩
    · exact Or.inl ⟨rfl, by simp⟩
    · exact Or.inr (Or.inr ⟨i, now, nowReset, r, rfl, hq⟩)
    · exact Or.inl ⟨rfl, by simp⟩
  | loopDone i =>
    obtain ⟨_, _, h2⟩ := loopDone_some w i w2 h
    subst h2
    exact Or.inl ⟨rfl, by simp⟩

theorem exec_cons_some (w : World R) (a : Action R) (rest : List (Action R)) (w2 : World R)
    (h : exec w (a :: rest) = some w2) : ∃ w1, step w a = some w1 ∧ exec w1 rest = some w2 := by
  simp only [exec] at h
  cases hs : step w a with
  | none => rw [hs] at h; cases h
  | some w1 => rw [hs] at h; exact ⟨w1, rfl, h⟩

/-- Both channels stay within their capacity. -/
theorem exec_capacity (w : World R) (acts : List (Action R)) (w2 : World R)
    (h : exec w acts = some w2)
    (h1 : w.o.targetWriteChan.length ≤ chanCapacity)
    (h2 : w.o.targetWriteOversizedChan.length ≤ chanCapacity) :
    w2.o.targetWriteChan.length ≤ chanCapacity ∧
    w2.o.targetWriteOversizedChan.length ≤ chanCapacity := by
  induction acts generalizing w with
  | nil => simp only [exec, Option.some.injEq] at h; subst h; exact ⟨h1, h2⟩
  | cons a rest ih =>
    obtain ⟨w1, hs, hr⟩ := exec_cons_some w a rest w2 h
    refine ih w1 hr ?_ ?_
    · rcases step_targetWriteChan w a w1 hs with ⟨g, _⟩ | ⟨r, _, g1, g2⟩ | ⟨i, n1, n2, r, _, g⟩
      · rw [g]; exact h1
      · rw [g2, List.length_append]; simpa using g1
      · rw [g] at h1; simp at h1; omega
    · rcases step_targetWriteOversizedChan w a w1 hs with
        ⟨g, _⟩ | ⟨r, _, g1, g2⟩ | ⟨i, n1, n2, r, _, g⟩
      · rw [g]; exact h2
      · rw [g2, List.length_append]; simpa using g1
      · rw [g] at h2; simp at h2; omega

/-- A full normal channel stays as it is until the loop receives from it. -/
theorem exec_full_targetWriteChan (w : World R) (acts : List (Action R)) (w2 : World R)
    (h : exec w acts = some w2) (hfull : w.o.targetWriteChan.length = chanCapacity)
    (hno : ∀ i now nowReset,
      Action.loopSelect i SelectCase.targetWriteChan now nowReset ∉ acts) :
    w2.o.targetWriteChan = w.o.targetWriteChan := by
  induction acts generalizing w with
  | nil => simp only [exec, Option.some.injEq] at h; subst h; rfl
  | cons a rest ih =>
    obtain ⟨w1, hs, hr⟩ := exec_cons_some w a rest w2 h
    have hkeep : w1.o.targetWriteChan = w.o.targetWriteChan := by
      rcases step_targetWriteChan w a w1 hs with ⟨g, _⟩ | ⟨r, _, g1, _⟩ | ⟨i, n1, n2, r, g, _⟩
      · exact g
      · omega
      · exact absurd (by rw [g]; exact List.mem_cons_self _ _) (hno i n1 n2)
    rw [← hkeep]
    exact ih w1 hr (by rw [hkeep]; exact hfull)
      (fun i n1 n2 hm => hno i n1 n2 (List.mem_cons_of_mem _ hm))

/-- A full oversized channel stays as it is until the loop receives from it. -/
theorem exec_full_targetWriteOversizedChan (w : World R) (acts : List (Action R)) (w2 : World R)
    (h : exec w acts = some w2) (hfull : w.o.targetWriteOversizedChan.length = chanCapacity)
    (hno : ∀ i now nowReset,
      Action.loopSelect i SelectCase.targetWriteOversizedChan now nowReset ∉ acts) :
    w2.o.targetWriteOversizedChan = w.o.targetWriteOversizedChan := by
  induction acts generalizing w with
  | nil => simp only [exec, Option.some.injEq] at h; subst h; rfl
  | cons a rest ih =>
    obtain ⟨w1, hs, hr⟩ := exec_cons_some w a rest w2 h
    have hkeep : w1.o.targetWriteOversizedChan = w.o.targetWriteOversizedChan := by
      rcases step_targetWriteOversizedChan w a w1 hs with
        ⟨g, _⟩ | ⟨r, _, g1, _⟩ | ⟨i, n1, n2, r, g, _⟩
      · exact g
      · omega
      · exact absurd (by rw [g]; exact List.mem_cons_self _ _) (hno i n1 n2)
    rw [← hkeep]
    exact ih w1 hr (by rw [hkeep]; exact hfull)
      (fun i n1 n2 hm => hno i n1 n2 (List.mem_cons_of_mem _ hm))

theorem normals_append (xs ys : List (R × Bool)) :
    normals (xs ++ ys) = normals xs ++ normals ys := by
  simp [normals, List.filterMap_append]

theorem oversizeds_append (xs ys : List (R × Bool)) :
    oversizeds (xs ++ ys) = oversizeds xs ++ oversizeds ys := by
  simp [oversizeds, List.filterMap_append]

theorem entries_replicate_finished (k : Nat) :
    (List.replicate k (LoopPC.finished : LoopPC R)).flatMap LoopPC.entries = [] := by
  induction k with
  | zero => rfl
  | succ n ih => simp [List.replicate_succ, List.flatMap_cons, LoopPC.entries, ih]

theorem getElem?_replicate_snoc (k : Nat) (a x y : LoopPC R) (i : Nat)
    (h : (List.replicate k a ++ [x])[i]? = some y) (hy : y ≠ a) : i = k ∧ y = x := by
  rw [List.getElem?_append] at h
  by_cases hlt : i < (List.replicate k a).length
  · rw [if_pos hlt, List.getElem?_replicate] at h
    split at h
    · exact absurd (Option.some.inj h).symm hy
    · cases h
  · rw [if_neg hlt] at h
    simp only [List.length_replicate] at h hlt
    cases hd : i - k with
    | zero =>
      rw [hd] at h
      simp at h
      exact ⟨by omega, h.symm⟩
    | succ m => rw [hd] at h; simp at h

theorem getElem?_replicate_only (k : Nat) (a y : LoopPC R) (i : Nat)
    (h : (List.replicate k a)[i]? = some y) : y = a := by
  rw [List.getElem?_replicate] at h
  split at h
  · exact (Option.some.inj h).symm
  · cases h

theorem set_replicate_snoc (k : Nat) (a x y : LoopPC R) :
    (List.replicate k a ++ [x]).set k y = List.replicate k a ++ [y] := by
  rw [List.set_append]
  simp

theorem replicate_snoc_self (k : Nat) (a : LoopPC R) :
    List.replicate k a ++ [a] = List.replicate (k + 1) a := by
  induction k with
  | zero => rfl
  | succ n ih => simp [List.replicate_succ, ih]

theorem accounted_Start (w : World R) (pn po : List R) (hinv : Accounted w pn po)
    (hc : w.caller = CallerPC.idle) : Accounted (Start w) pn po := by
  obtain ⟨hclient, hlife, hn, ho⟩ := hinv
  unfold sentEntries liveEntries at hn ho
  cases hlife with
  | stopped k hl hr hcal =>
    have hS : Start w =
        { w with o := { w.o with isRunning := true }, loops := w.loops ++ [LoopPC.launched] } := by
      simp [Start, hr]
    rw [hS]
    refine ⟨hclient, Lifecycle.running k LoopPC.launched (by simp [hl]) (Or.inl rfl) rfl (Or.inl hcal),
      ?_, ?_⟩
    · simpa [sentEntries, liveEntries, List.flatMap_append, LoopPC.entries] using hn
    · simpa [sentEntries, liveEntries, List.flatMap_append, LoopPC.entries] using ho
  | running k l hl hlive hr hcal =>
    have hS : Start w = { w with effects := w.effects ++ [Effect.warn Warning.alreadyRunning] } := by
      simp [Start, hr]
    rw [hS]
    refine ⟨hclient, Lifecycle.running k l hl hlive hr hcal, ?_, ?_⟩
    · simpa [sentEntries, liveEntries, sends_append, sends] using hn
    · simpa [sentEntries, liveEntries, sends_append, sends] using ho
  | stopping k hl hr hcal => rw [hcal] at hc; cases hc

theorem accounted_Stop (w : World R) (pn po : List R) (hinv : Accounted w pn po)
    (hc : w.caller = CallerPC.idle) : Accounted (Stop w) pn po := by
  obtain ⟨hclient, hlife, hn, ho⟩ := hinv
  cases hlife with
  | stopped k hl hr hcal =>
    have hS : Stop w = w := by simp [Stop, hr]
    rw [hS]
    exact ⟨hclient, Lifecycle.stopped k hl hr hcal, hn, ho⟩
  | running k l hl hlive hr hcal =>
    have hS : Stop w = { w with caller := CallerPC.sendingExit } := by simp [Stop, hr]
    rw [hS]
    exact ⟨hclient, Lifecycle.running k l hl hlive hr (Or.inr rfl), hn, ho⟩
  | stopping k hl hr hcal => rw [hcal] at hc; cases hc

theorem lifecycle_of_same (w w2 : World R) (h : Lifecycle w) (hl : w2.loops = w.loops)
    (hr : w2.o.isRunning = w.o.isRunning) (hc : w2.caller = w.caller) : Lifecycle w2 := by
  cases h with
  | stopped k h1 h2 h3 => exact Lifecycle.stopped k (hl ▸ h1) (hr ▸ h2) (hc ▸ h3)
  | running k l h1 h2 h3 h4 => exact Lifecycle.running k l (hl ▸ h1) h2 (hr ▸ h3) (hc ▸ h4)
  | stopping k h1 h2 h3 => exact Lifecycle.stopping k (hl ▸ h1) (hr ▸ h2) (hc ▸ h3)

theorem accounted_TargetWrite (w : World R) (pn po : List R) (hinv : Accounted w pn po) (r : R) :
    Accounted { w with o := { w.o with targetWriteChan := w.o.targetWriteChan ++ [r] } }
      (pn ++ [r]) po := by
  obtain ⟨hclient, hlife, hn, ho⟩ := hinv
  refine ⟨hclient, lifecycle_of_same w _ hlife rfl rfl rfl, ?_, ho⟩
  rw [← hn]
  simp [sentEntries, liveEntries]

theorem accounted_TargetWriteOversized (w : World R) (pn po : List R)
    (hinv : Accounted w pn po) (r : R) :
    Accounted { w with o := { w.o with
        targetWriteOversizedChan := w.o.targetWriteOversizedChan ++ [r] } }
      pn (po ++ [r]) := by
  obtain ⟨hclient, hlife, hn, ho⟩ := hinv
  refine ⟨hclient, lifecycle_of_same w _ hlife rfl rfl rfl, hn, ?_⟩
  rw [← ho]
  simp [sentEntries, liveEntries]

theorem accounted_loopBegin (w : World R) (pn po : List R) (hinv : Accounted w pn po)
    (i : Nat) (now : Time) (w2 : World R) (h : loopBegin w i now = some w2) :
    Accounted w2 pn po := by
  obtain ⟨hclient, hlife, hn, ho⟩ := hinv
  obtain ⟨hi, rfl⟩ := loopBegin_some w i now w2 h
  unfold sentEntries liveEntries at hn ho
  cases hlife with
  | stopped k hl hr hcal =>
    rw [hl] at hi
    exact absurd (getElem?_replicate_only k _ _ i hi) (by simp)
  | running k l hl hlive hr hcal =>
    rw [hl] at hi
    obtain ⟨rfl, rfl⟩ := getElem?_replicate_snoc k _ _ _ i hi (by simp)
    rw [hl] at hn ho
    refine ⟨hclient, Lifecycle.running i _ (by simp only [hl]; exact set_replicate_snoc i _ _ _)
      (Or.inr ⟨_, rfl⟩) hr hcal, ?_, ?_⟩
    · simpa [sentEntries, liveEntries, hl, set_replicate_snoc, List.flatMap_append,
        entries_replicate_finished, LoopPC.entries, loopEntry, ObserverBuffer.empty] using hn
    · simpa [sentEntries, liveEntries, hl, set_replicate_snoc, List.flatMap_append,
        entries_replicate_finished, LoopPC.entries, loopEntry, ObserverBuffer.empty] using ho
  | stopping k hl hr hcal =>
    rw [hl] at hi
    obtain ⟨_, h2⟩ := getElem?_replicate_snoc k _ _ _ i hi (by simp)
    cases h2

theorem accounted_loopDone (w : World R) (pn po : List R) (hinv : Accounted w pn po)
    (i : Nat) (w2 : World R) (h : loopDone w i = some w2) :
    Accounted w2 pn po := by
  obtain ⟨hclient, hlife, hn, ho⟩ := hinv
  obtain ⟨hi, hcal2, rfl⟩ := loopDone_some w i w2 h
  unfold sentEntries liveEntries at hn ho
  cases hlife with
  | stopped k hl hr hcal =>
    rw [hl] at hi
    exact absurd (getElem?_replicate_only k _ _ i hi) (by simp)
  | running k l hl hlive hr hcal =>
    rcases hcal with hcal | hcal <;> rw [hcal] at hcal2 <;> cases hcal2
  | stopping k hl hr hcal =>
    rw [hl] at hi
    obtain ⟨rfl, _⟩ := getElem?_replicate_snoc k _ _ _ i hi (by simp)
    rw [hl] at hn ho
    refine ⟨hclient, Lifecycle.stopped (i + 1)
      (by simp only [hl]; rw [set_replicate_snoc, replicate_snoc_self]) hr rfl, ?_, ?_⟩
    · simpa [sentEntries, liveEntries, hl, set_replicate_snoc, List.flatMap_append,
        entries_replicate_finished, LoopPC.entries] using hn
    · simpa [sentEntries, liveEntries, hl, set_replicate_snoc, List.flatMap_append,
        entries_replicate_finished, LoopPC.entries] using ho

/-- An iteration other than the exit case keeps the accounting: `w1` is the world after
the communication of the `select`. -/
theorem accounted_iterate (w : World R) (pn po : List R) (hinv : Accounted w pn po)
    (k : Nat) (s : LoopState R)
    (hl : w.loops = List.replicate k LoopPC.finished ++ [LoopPC.selecting s])
    (w1 : World R) (t : Tick R) (hne : t.selected ≠ Selected.exitSignal)
    (h1l : w1.loops = w.loops) (h1e : w1.effects = w.effects) (h1c : w1.caller = w.caller)
    (h1r : w1.o.isRunning = w.o.isRunning) (h1s : w1.o.statsClient = w.o.statsClient)
    (hnq : normals (merged t) ++ w1.o.targetWriteChan = w.o.targetWriteChan)
    (hoq : oversizeds (merged t) ++ w1.o.targetWriteOversizedChan
      = w.o.targetWriteOversizedChan) :
    Accounted
      { w1 with
        o := { w1.o with
          isRunning := if (iteration w1.o s t).stopped then false else w1.o.isRunning }
        loops := w1.loops.set k
          (if (iteration w1.o s t).stopped then LoopPC.sendingDone
           else LoopPC.selecting (iteration w1.o s t).state)
        effects := w1.effects ++ (iteration w1.o s t).effects } pn po := by
  obtain ⟨hclient, hlife, hn, ho⟩ := hinv
  have hst := iteration_not_stopped w1.o s t hne
  have hclient1 : w1.o.statsClient = true := by rw [h1s]; exact hclient
  have hcons := iteration_conserve w1.o hclient1 s t hne
  have hloops : w1.loops.set k (LoopPC.selecting (iteration w1.o s t).state)
      = List.replicate k LoopPC.finished ++ [LoopPC.selecting (iteration w1.o s t).state] := by
    rw [h1l, hl, set_replicate_snoc]
  have hentries : allEntries (sends (w1.effects ++ (iteration w1.o s t).effects)) ++
      (w1.loops.set k (LoopPC.selecting (iteration w1.o s t).state)).flatMap LoopPC.entries
      = (sentEntries w ++ liveEntries w) ++ merged t := by
    rw [hloops, sends_append, allEntries_append, List.flatMap_append, entries_replicate_finished,
      h1e, List.append_assoc]
    simp only [List.nil_append, List.flatMap_cons, List.flatMap_nil, List.append_nil,
      LoopPC.entries]
    rw [hcons]
    simp [sentEntries, liveEntries, hl, List.flatMap_append, entries_replicate_finished,
      LoopPC.entries]
  simp only [hst, Bool.false_eq_true, if_false]
  refine ⟨hclient1, ?_, ?_, ?_⟩
  · cases hlife with
    | stopped j hl2 hr hcal =>
      have := congrArg List.length (hl2.symm.trans hl)
      rw [hl] at hl2
      have h3 : (List.replicate k (LoopPC.finished : LoopPC R) ++ [LoopPC.selecting s])[k]?
          = some (LoopPC.selecting s) := by simp
      rw [hl2] at h3
      exact absurd (getElem?_replicate_only j _ _ k h3) (by simp)
    | running j l hl2 hlive hr hcal =>
      exact Lifecycle.running k _ hloops (Or.inr ⟨_, rfl⟩) (by simpa [h1r] using hr)
        (by simpa [h1c] using hcal)
    | stopping j hl2 hr hcal =>
      rw [hl] at hl2
      have h3 : (List.replicate k (LoopPC.finished : LoopPC R) ++ [LoopPC.selecting s])[k]?
          = some (LoopPC.selecting s) := by simp
      rw [hl2] at h3
      obtain ⟨_, h4⟩ := getElem?_replicate_snoc j _ _ _ k h3 (by simp)
      cases h4
  · show normals (allEntries (sends (w1.effects ++ (iteration w1.o s t).effects)) ++
      (w1.loops.set k (LoopPC.selecting (iteration w1.o s t).state)).flatMap LoopPC.entries)
      ++ w1.o.targetWriteChan = pn
    rw [hentries, normals_append, List.append_assoc, hnq, hn]
  · show oversizeds (allEntries (sends (w1.effects ++ (iteration w1.o s t).effects)) ++
      (w1.loops.set k (LoopPC.selecting (iteration w1.o s t).state)).flatMap LoopPC.entries)
      ++ w1.o.targetWriteOversizedChan = po
    rw [hentries, oversizeds_append, List.append_assoc, hoq, ho]

theorem accounted_loopSelect (w : World R) (pn po : List R) (hinv : Accounted w pn po)
    (i : Nat) (c : SelectCase) (now nowReset : Time) (w2 : World R)
    (h : loopSelect w i c now nowReset = some w2) : Accounted w2 pn po := by
  obtain ⟨s, sel, w1, hi, hrecv, rfl⟩ := loopSelect_some w i c now nowReset w2 h
  have hshape : ∃ k, i = k ∧
      w.loops = List.replicate k LoopPC.finished ++ [LoopPC.selecting s] := by
    cases hinv.life with
    | stopped k hl hr hcal =>
      rw [hl] at hi
      exact absurd (getElem?_replicate_only k _ _ i hi) (by simp)
    | running k l hl hlive hr hcal =>
      rw [hl] at hi
      obtain ⟨h1, h2⟩ := getElem?_replicate_snoc k _ _ _ i hi (by simp)
      exact ⟨k, h1, by rw [hl, h2]⟩
    | stopping k hl hr hcal =>
      rw [hl] at hi
      obtain ⟨_, h2⟩ := getElem?_replicate_snoc k _ _ _ i hi (by simp)
      cases h2
  obtain ⟨k, rfl, hl⟩ := hshape
  rcases receive_some w c sel w1 hrecv with ⟨_, hcal, rfl, rfl⟩ | ⟨_, r, q, hq, rfl, rfl⟩ |
    ⟨_, r, q, hq, rfl, rfl⟩ | ⟨_, rfl, rfl⟩
  · obtain ⟨hclient, hlife, hn, ho⟩ := hinv
    rw [iteration_exit]
    simp only [if_true]
    have hsent : allEntries (sends (w.effects ++
        Effect.warn Warning.receivedExitSignal :: flushEffects w.o s.buffer))
        = sentEntries w ++ liveEntries w := by
      rw [sends_append]
      simp [sends, sends_flushEffects, hclient, allEntries_append, allEntries, sentEntries,
        liveEntries, hl, List.flatMap_append, entries_replicate_finished, LoopPC.entries]
    have hlive : (w.loops.set i LoopPC.sendingDone).flatMap LoopPC.entries = [] := by
      rw [hl, set_replicate_snoc, List.flatMap_append, entries_replicate_finished]
      simp [LoopPC.entries]
    refine ⟨hclient, Lifecycle.stopping i (by simp only [hl]; exact set_replicate_snoc i _ _ _)
      rfl rfl, ?_, ?_⟩
    · show normals (allEntries (sends (w.effects ++
        Effect.warn Warning.receivedExitSignal :: flushEffects w.o s.buffer)) ++
        (w.loops.set i LoopPC.sendingDone).flatMap LoopPC.entries) ++ w.o.targetWriteChan = pn
      rw [hsent, hlive, List.append_nil, hn]
    · show oversizeds (allEntries (sends (w.effects ++
        Effect.warn Warning.receivedExitSignal :: flushEffects w.o s.buffer)) ++
        (w.loops.set i LoopPC.sendingDone).flatMap LoopPC.entries)
        ++ w.o.targetWriteOversizedChan = po
      rw [hsent, hlive, List.append_nil, ho]
  · exact accounted_iterate w pn po hinv i s hl _ ⟨Selected.targetWrite r, now, nowReset⟩
      (by simp) rfl rfl rfl rfl rfl (by simp [merged, normals, hq])
      (by simp [merged, oversizeds])
  · exact accounted_iterate w pn po hinv i s hl _
      ⟨Selected.targetWriteOversized r, now, nowReset⟩
      (by simp) rfl rfl rfl rfl rfl (by simp [merged, normals])
      (by simp [merged, oversizeds, hq])
  · exact accounted_iterate w1 pn po hinv i s hl _ ⟨Selected.timeAfter, now, nowReset⟩
      (by simp) rfl rfl rfl rfl rfl (by simp [merged, normals])
      (by simp [merged, oversizeds])

theorem step_accounted (w : World R) (pn po : List R) (hinv : Accounted w pn po)
    (a : Action R) (w2 : World R) (h : step w a = some w2) :
    Accounted w2 (pn ++ pushedNormal [a]) (po ++ pushedOversized [a]) := by
  cases a with
  | callStart =>
    by_cases hc : w.caller = CallerPC.idle
    · simp only [step, if_pos hc, Option.some.injEq] at h
      subst h
      simpa [pushedNormal, pushedOversized] using accounted_Start w pn po hinv hc
    · simp [step, hc] at h
  | callStop =>
    by_cases hc : w.caller = CallerPC.idle
    · simp only [step, if_pos hc, Option.some.injEq] at h
      subst h
      simpa [pushedNormal, pushedOversized] using accounted_Stop w pn po hinv hc
    · simp [step, hc] at h
  | targetWrite r =>
    obtain ⟨_, rfl⟩ := TargetWrite_some w r w2 h
    simpa [pushedNormal, pushedOversized] using accounted_TargetWrite w pn po hinv r
  | targetWriteOversized r =>
    obtain ⟨_, rfl⟩ := TargetWriteOversized_some w r w2 h
    simpa [pushedNormal, pushedOversized] using accounted_TargetWriteOversized w pn po hinv r
  | loopBegin i now =>
    simpa [pushedNormal, pushedOversized] using accounted_loopBegin w pn po hinv i now w2 h
  | loopSelect i c now nowReset =>
    simpa [pushedNormal, pushedOversized] using
      accounted_loopSelect w pn po hinv i c now nowReset w2 h
  | loopDone i =>
    simpa [pushedNormal, pushedOversized] using accounted_loopDone w pn po hinv i w2 h

theorem exec_accounted (w : World R) (pn po : List R) (hinv : Accounted w pn po)
    (acts : List (Action R)) (w2 : World R) (h : exec w acts = some w2) :
    Accounted w2 (pn ++ pushedNormal acts) (po ++ pushedOversized acts) := by
  induction acts generalizing w pn po with
  | nil =>
    simp only [exec, Option.some.injEq] at h
    subst h
    simpa [pushedNormal, pushedOversized] using hinv
  | cons a rest ih =>
    obtain ⟨w1, hs, hr⟩ := exec_cons_some w a rest w2 h
    have := ih w1 _ _ (step_accounted w pn po hinv a w1 hs) hr
    have e1 : pushedNormal (a :: rest) = pushedNormal [a] ++ pushedNormal rest := by
      simp [pushedNormal, List.filterMap_cons]
      cases a <;> simp
    have e2 : pushedOversized (a :: rest) = pushedOversized [a] ++ pushedOversized rest := by
      simp [pushedOversized, List.filterMap_cons]
      cases a <;> simp
    rw [e1, e2, ← List.append_assoc, ← List.append_assoc]
    exact this

theorem accounted_new (timeout reportInterval : Duration) :
    Accounted (World.new true timeout reportInterval : World R) [] [] :=
  ⟨rfl, Lifecycle.stopped 0 rfl rfl rfl, rfl, rfl⟩

end WorldLemmas

/-! ## The claims -/

section Claims

variable {R : Type}

/-- C5: in every loop iteration the flush (the summary of the buffer is logged and, with a
client present, the buffer is sent) occurs if and only if either (a) a normal event, an
oversized event or an idle tick was handled and the clock has passed the report deadline,
or (b) the exit signal was handled; it occurs at most once per iteration, and in case (b)
it carries the current buffer whatever the deadline and the contents of the buffer. -/
theorem flush_iff_deadline_or_exit (o : Observer R) (s : LoopState R) (t : Tick R) :
    (flushes (iteration o s t).effects ≠ [] ↔
      (deadlineFlush s t ∨ t.selected = Selected.exitSignal)) ∧
    (sends (iteration o s t).effects ≠ [] ↔
      (o.statsClient = true ∧ (deadlineFlush s t ∨ t.selected = Selected.exitSignal))) ∧
    (flushes (iteration o s t).effects).length ≤ 1 ∧
    (sends (iteration o s t).effects).length ≤ 1 ∧
    (∀ now nowReset : Time,
      flushes (iteration o s ⟨Selected.exitSignal, now, nowReset⟩).effects = [s.buffer] ∧
      sends (iteration o s ⟨Selected.exitSignal, now, nowReset⟩).effects =
        if o.statsClient then [s.buffer] else []) := by
  have hexit : ∀ now nowReset : Time,
      flushes (iteration o s ⟨Selected.exitSignal, now, nowReset⟩).effects = [s.buffer] ∧
      sends (iteration o s ⟨Selected.exitSignal, now, nowReset⟩).effects =
        if o.statsClient then [s.buffer] else [] := by
    intro now nowReset
    rw [iteration_exit]
    cases hc : o.statsClient <;> simp [flushes, sends, flushEffects, hc]
  refine ⟨?_, ?_, ?_, ?_, hexit⟩
  all_goals
    by_cases ht : t.selected = Selected.exitSignal
    · obtain ⟨sel, now, nowReset⟩ := t
      simp only at ht
      subst ht
      obtain ⟨h1, h2⟩ := hexit now nowReset
      simp only [h1, h2]
      cases hc : o.statsClient <;> simp [deadlineFlush]
    · simp only [iteration_flushes o s t ht, iteration_sends o s t ht]
      by_cases hd : t.now > s.reportTime <;> cases hc : o.statsClient <;>
        simp [deadlineFlush, ht, hd]

/-- C6: with a nil client, over every sequence of loop events no `Send` is performed, and
the locals of the loop (buffer, deadline), its termination on the exit signal, the logged
flushes and all other effects are those of the same run with a client present. -/
theorem nil_client_no_send (o : Observer R) (s : LoopState R) (ticks : List (Tick R)) :
    sends (runLoop { o with statsClient := false } s ticks).effects = [] ∧
    (runLoop { o with statsClient := false } s ticks).state
      = (runLoop { o with statsClient := true } s ticks).state ∧
    (runLoop { o with statsClient := false } s ticks).stopped
      = (runLoop { o with statsClient := true } s ticks).stopped ∧
    flushes (runLoop { o with statsClient := false } s ticks).effects
      = flushes (runLoop { o with statsClient := true } s ticks).effects ∧
    (runLoop { o with statsClient := false } s ticks).effects
      = (runLoop { o with statsClient := true } s ticks).effects.filter (fun e => !e.isSend) := by
  obtain ⟨h1, h2, h3⟩ := runLoop_nil_client o s ticks
  refine ⟨?_, h1, h2, ?_, h3⟩
  · rw [h3]; exact sends_filter_not_isSend _
  · rw [h3]; exact flushes_filter_not_isSend _

/-- C9: the shutdown transition is terminal and flushes once.  For every loop state (any
buffer, any deadline, passed or not), handling the exit signal logs the warning and the
summary, hands the current buffer to the client in exactly one `Send` (none with a nil
client), leaves the locals untouched (the deadline test is skipped), clears `isRunning`
and leaves the loop: no later wake-up is executed; the goroutine then completes the
`stopDone` rendezvous with the caller blocked in `Stop`, which returns. -/
theorem shutdown_is_terminal (w : World R) (i : Nat) (s : LoopState R) (now nowReset : Time)
    (hi : w.loops[i]? = some (LoopPC.selecting s)) (hc : w.caller = CallerPC.sendingExit) :
    iteration w.o s ⟨Selected.exitSignal, now, nowReset⟩ =
      { state := s
        effects := Effect.warn Warning.receivedExitSignal :: Effect.info s.buffer ::
          (if w.o.statsClient then [Effect.send BufferPtr.buffer s.buffer] else [])
        stopped := true } ∧
    sends (iteration w.o s ⟨Selected.exitSignal, now, nowReset⟩).effects =
      (if w.o.statsClient then [s.buffer] else []) ∧
    (∀ rest : List (Tick R), runLoop w.o s (⟨Selected.exitSignal, now, nowReset⟩ :: rest) =
      iteration w.o s ⟨Selected.exitSignal, now, nowReset⟩) ∧
    loopSelect w i SelectCase.exitSignal now nowReset =
      some { o := { w.o with isRunning := false }
             caller := CallerPC.awaitingDone
             loops := w.loops.set i LoopPC.sendingDone
             effects := w.effects ++ (iteration w.o s ⟨Selected.exitSignal, now, nowReset⟩).effects } ∧
    (∀ (w1 : World R) (c : SelectCase) (n1 n2 : Time),
      loopSelect w i SelectCase.exitSignal now nowReset = some w1 →
        loopSelect w1 i c n1 n2 = none ∧
        loopDone w1 i = some { w1 with caller := CallerPC.idle, loops := w.loops.set i LoopPC.finished }) := by
  have hlt : i < w.loops.length := by
    rcases List.getElem?_eq_some.1 hi with ⟨h, _⟩
    exact h
  have hsel : loopSelect w i SelectCase.exitSignal now nowReset =
      some { o := { w.o with isRunning := false }
             caller := CallerPC.awaitingDone
             loops := w.loops.set i LoopPC.sendingDone
             effects := w.effects ++ (iteration w.o s ⟨Selected.exitSignal, now, nowReset⟩).effects } := by
    simp [loopSelect, hi, receive, hc, iteration_exit]
  refine ⟨?_, ?_, ?_, hsel, ?_⟩
  · rw [iteration_exit]; simp [flushEffects]
  · rw [iteration_exit]; cases h : w.o.statsClient <;> simp [sends, flushEffects, h]
  · intro rest; exact runLoop_cons_of_exit _ _ _ _ rfl
  · intro w1 c n1 n2 h1
    rw [hsel] at h1
    cases h1
    constructor
    · simp [loopSelect, List.getElem?_set, hlt]
    · simp [loopDone, List.getElem?_set, hlt]

/-- Witness of C9: a loop holding one entry whose deadline has passed receives the exit signal. -/
theorem shutdown_is_terminal_witness :
    sends (iteration (New true 100 1000 : Observer Nat) ⟨50, ⟨[(7, false)]⟩⟩
      ⟨Selected.exitSignal, 60, 60⟩).effects = [⟨[(7, false)]⟩] :=
  (shutdown_is_terminal
    { o := { (New true 100 1000 : Observer Nat) with isRunning := true }
      caller := CallerPC.sendingExit
      loops := [LoopPC.selecting ⟨50, ⟨[(7, false)]⟩⟩]
      effects := [] } 0 ⟨50, ⟨[(7, false)]⟩⟩ 60 60 rfl rfl).2.1

/-- C3: `Start` is idempotent.  On a running observer it creates no goroutine and leaves
every field, the caller and the goroutines unchanged, logging only the warning; hence a
second `Start` changes nothing but the log, and two calls on a new observer leave exactly
one goroutine. -/
theorem start_idempotent (w : World R) (h : w.o.isRunning = true) :
    Start w = { w with effects := w.effects ++ [Effect.warn Warning.alreadyRunning] } ∧
    (Start w).o = w.o ∧ (Start w).loops = w.loops ∧ (Start w).caller = w.caller ∧
    (∀ v : World R, Start (Start v) =
      { Start v with effects := (Start v).effects ++ [Effect.warn Warning.alreadyRunning] }) ∧
    (∀ (statsClient : Bool) (timeout reportInterval : Duration),
      exec (World.new statsClient timeout reportInterval : World R)
        [Action.callStart, Action.callStart] =
      some { (Start (World.new statsClient timeout reportInterval : World R)) with
        effects := [Effect.warn Warning.alreadyRunning] } ∧
      (Start (World.new statsClient timeout reportInterval : World R)).loops = [LoopPC.launched]) := by
  refine ⟨?_, ?_, ?_, ?_, ?_, ?_⟩
  · simp [Start, h]
  · simp [Start, h]
  · simp [Start, h]
  · simp [Start, h]
  · intro v
    cases hv : v.o.isRunning <;> simp [Start, hv]
  · intro sc tmo ri
    simp [exec, step, Start, World.new, New]

/-- Witness of C3: a running observer with one goroutine at its `select`. -/
theorem start_idempotent_witness :
    (Start ({ o := { (New true 100 1000 : Observer Nat) with isRunning := true }
              caller := CallerPC.idle
              loops := [LoopPC.selecting ⟨1000, ⟨[]⟩⟩]
              effects := [] } : World Nat)).loops = [LoopPC.selecting ⟨1000, ⟨[]⟩⟩] :=
  (start_idempotent
    ({ o := { (New true 100 1000 : Observer Nat) with isRunning := true }
       caller := CallerPC.idle
       loops := [LoopPC.selecting ⟨1000, ⟨[]⟩⟩]
       effects := [] } : World Nat) rfl).2.2.1

/-- C4: on an observer that is not running (never started, or stopped) `Stop` returns at
once and changes nothing: the caller does not block on `exitSignal` or `stopDone`, no
effect (in particular no `Send`) is performed, the channels and the flag are unchanged. -/
theorem stop_not_running_noop (w : World R) (h : w.o.isRunning = false) :
    Stop w = w ∧
    (if w.caller = CallerPC.idle then step w Action.callStop = some w
     else step w Action.callStop = none) := by
  have hs : Stop w = w := by simp [Stop, h]
  refine ⟨hs, ?_⟩
  by_cases hc : w.caller = CallerPC.idle
  · simp [step, hc, hs]
  · simp [step, hc]

/-- Witness of C4: `Stop` on a new observer holding a pending result. -/
theorem stop_not_running_noop_witness :
    Stop ({ o := { (New true 100 1000 : Observer Nat) with targetWriteChan := [7] }
            caller := CallerPC.idle, loops := [], effects := [] } : World Nat) =
      { o := { (New true 100 1000 : Observer Nat) with targetWriteChan := [7] }
        caller := CallerPC.idle, loops := [], effects := [] } :=
  (stop_not_running_noop
    ({ o := { (New true 100 1000 : Observer Nat) with targetWriteChan := [7] }
       caller := CallerPC.idle, loops := [], effects := [] } : World Nat) rfl).1

/-- C10: the floating schedule never drifts backward.  The initial deadline is the start
time plus `reportInterval`; an iteration changes the deadline only when its deadline test
triggers the flush; and with a clock that never decreases, for every `reportInterval`,
the recomputed deadline is the current time plus `reportInterval` and is not earlier
than the deadline it replaces. -/
theorem deadline_never_moves_back (o : Observer R) (start : Time) (ticks : List (Tick R))
    (hclock : clockMonotone start ticks) :
    (loopEntry o start).reportTime = start + o.reportInterval ∧
    ∀ (pre : List (Tick R)) (t : Tick R) (post : List (Tick R)), ticks = pre ++ t :: post →
      (¬ deadlineFlush (runLoop o (loopEntry o start) pre).state t →
        (iteration o (runLoop o (loopEntry o start) pre).state t).state.reportTime
          = (runLoop o (loopEntry o start) pre).state.reportTime) ∧
      (deadlineFlush (runLoop o (loopEntry o start) pre).state t →
        (iteration o (runLoop o (loopEntry o start) pre).state t).state.reportTime
          = t.nowReset + o.reportInterval ∧
        (runLoop o (loopEntry o start) pre).state.reportTime
          ≤ (iteration o (runLoop o (loopEntry o start) pre).state t).state.reportTime) := by
  refine ⟨rfl, ?_⟩
  intro pre t post heq
  refine ⟨iteration_reportTime_keep o _ t, ?_⟩
  intro hf
  have hle := reportTime_le_now o (loopEntry o start) start ticks (le_refl _) hclock pre t post heq
  have hmono := (clockMonotone_le start ticks hclock t (by rw [heq]; simp)).2
  rw [iteration_state_flush o _ t hf.1 hf.2]
  refine ⟨rfl, ?_⟩
  show _ ≤ t.nowReset + o.reportInterval
  linarith

/-- Witness of C10: a negative report interval, two idle ticks that both flush. -/
theorem deadline_never_moves_back_witness :
    (iteration (New true 100 (-50) : Observer Nat)
        (runLoop (New true 100 (-50) : Observer Nat) (loopEntry (New true 100 (-50)) 0)
          [⟨Selected.timeAfter, 100, 101⟩]).state ⟨Selected.timeAfter, 200, 202⟩).state.reportTime
        = 202 + (New true 100 (-50) : Observer Nat).reportInterval ∧
      (runLoop (New true 100 (-50) : Observer Nat) (loopEntry (New true 100 (-50)) 0)
          [⟨Selected.timeAfter, 100, 101⟩]).state.reportTime
        ≤ (iteration (New true 100 (-50) : Observer Nat)
            (runLoop (New true 100 (-50) : Observer Nat) (loopEntry (New true 100 (-50)) 0)
              [⟨Selected.timeAfter, 100, 101⟩]).state ⟨Selected.timeAfter, 200, 202⟩).state.reportTime :=
  ((deadline_never_moves_back (New true 100 (-50) : Observer Nat) 0
    [⟨Selected.timeAfter, 100, 101⟩, ⟨Selected.timeAfter, 200, 202⟩]
    ⟨by decide, by decide, by decide, by decide, trivial⟩).2
    [⟨Selected.timeAfter, 100, 101⟩] ⟨Selected.timeAfter, 200, 202⟩ [] rfl).2 (by decide)

/-- C2 as stated fails: `Send` receives `&buffer`, the address of the variable the loop
goes on using.  In the scenario the tick at 1100 ms sends the buffer holding the three
normal entries and the oversized one; right after the flush the object handed over is
empty, and once a result is merged at 1150 ms that same object holds the later entry. -/
theorem sent_buffer_shows_later_event :
    sends (runLoop scenarioObserver (loopEntry scenarioObserver 0) scenarioThenPush).effects
      = [⟨[(1, false), (9, true), (2, false), (3, false)]⟩] ∧
    sentPtrs (runLoop scenarioObserver (loopEntry scenarioObserver 0) scenarioThenPush).effects
      = [BufferPtr.buffer] ∧
    heldBuffers (runLoop scenarioObserver (loopEntry scenarioObserver 0) (scenario.take 13)).effects
        (runLoop scenarioObserver (loopEntry scenarioObserver 0) (scenario.take 13)).state
      = [⟨[]⟩] ∧
    heldBuffers (runLoop scenarioObserver (loopEntry scenarioObserver 0) scenarioThenPush).effects
        (runLoop scenarioObserver (loopEntry scenarioObserver 0) scenarioThenPush).state
      = [⟨[(4, false)]⟩] := by
  decide

/-- C2 (amended): over every sequence of loop events (normal event, oversized event, idle
tick, with their clock readings), the buffer handed to the `k`-th `Send` holds, when the
call is made, exactly the entries merged since the previous flush (since loop entry for
the first), in handling order, each with the oversized flag of its channel, the event of
the flushing iteration included; the buffer is empty right after the flush; over the
calls every entry is handed over exactly once.  The object handed over is the variable of
the loop itself: read after the call it shows the current buffer of the loop, so once a
flush has emptied it, it holds the entries merged since.  In the scenario (report interval
1 s, timeout 100 ms, normal results at 0, 200 and 300 ms, one oversized at 150 ms) nothing
is sent up to the tick at 1000 ms and the tick at 1100 ms sends one buffer with the three
normal entries and the oversized one. -/
theorem send_holds_entries_since_last_flush (o : Observer R) (hc : o.statsClient = true)
    (start : Time) (ticks : List (Tick R))
    (hne : ∀ t ∈ ticks, t.selected ≠ Selected.exitSignal) :
    (∀ (k : Nat) (buf : ObserverBuffer R),
      (sends (runLoop o (loopEntry o start) ticks).effects)[k]? = some buf →
      ∃ (pre seg : List (Tick R)) (t : Tick R) (post : List (Tick R)),
        ticks = pre ++ seg ++ t :: post ∧
        (sends (runLoop o (loopEntry o start) pre).effects).length = k ∧
        (runLoop o (loopEntry o start) pre).state.buffer = ObserverBuffer.empty ∧
        sends (runLoop o (loopEntry o start) (pre ++ seg)).effects
          = sends (runLoop o (loopEntry o start) pre).effects ∧
        deadlineFlush (runLoop o (loopEntry o start) (pre ++ seg)).state t ∧
        buf.entries = (seg ++ [t]).flatMap merged ∧
        sends (runLoop o (loopEntry o start) (pre ++ seg ++ [t])).effects
          = sends (runLoop o (loopEntry o start) pre).effects ++ [buf] ∧
        (runLoop o (loopEntry o start) (pre ++ seg ++ [t])).state.buffer = ObserverBuffer.empty) ∧
    allEntries (sends (runLoop o (loopEntry o start) ticks).effects)
        ++ (runLoop o (loopEntry o start) ticks).state.buffer.entries
      = ticks.flatMap merged ∧
    heldBuffers (runLoop o (loopEntry o start) ticks).effects
        (runLoop o (loopEntry o start) ticks).state
      = List.replicate (sends (runLoop o (loopEntry o start) ticks).effects).length
          (runLoop o (loopEntry o start) ticks).state.buffer ∧
    (∀ pre post : List (Tick R), ticks = pre ++ post →
      (runLoop o (loopEntry o start) pre).state.buffer = ObserverBuffer.empty →
      sends (runLoop o (loopEntry o start) ticks).effects
        = sends (runLoop o (loopEntry o start) pre).effects →
      heldBuffers (runLoop o (loopEntry o start) ticks).effects
          (runLoop o (loopEntry o start) ticks).state
        = List.replicate (sends (runLoop o (loopEntry o start) pre).effects).length
            ⟨post.flatMap merged⟩) ∧
    (sends (runLoop scenarioObserver (loopEntry scenarioObserver 0) (scenario.take 12)).effects = [] ∧
     sends (runLoop scenarioObserver (loopEntry scenarioObserver 0) (scenario.take 13)).effects
       = [⟨[(1, false), (9, true), (2, false), (3, false)]⟩] ∧
     (runLoop scenarioObserver (loopEntry scenarioObserver 0) (scenario.take 13)).state
       = ⟨ms 2100, ObserverBuffer.empty⟩ ∧
     sends (runLoop scenarioObserver (loopEntry scenarioObserver 0) scenario).effects
       = [⟨[(1, false), (9, true), (2, false), (3, false)]⟩]) := by
  refine ⟨?_, ?_, heldBuffers_eq _ _, ?_, ?_⟩
  · intro k buf hk
    exact runLoop_kth_send o hc (loopEntry o start) rfl ticks hne k buf hk
  · have := runLoop_conserve o hc (loopEntry o start) ticks hne
    simpa [loopEntry, ObserverBuffer.empty] using this
  · intro pre post heq hempty hsame
    subst heq
    rw [heldBuffers_eq, hsame,
      runLoop_buffer_since o hc (loopEntry o start) pre post hne hempty hsame]
  · decide

/-- Witness of C2 (amended): the scenario followed by one more result; the buffer handed
over at 1100 ms, read after the run, holds the entry merged at 1150 ms. -/
theorem send_holds_entries_since_last_flush_witness :
    heldBuffers (runLoop scenarioObserver (loopEntry scenarioObserver 0) scenarioThenPush).effects
        (runLoop scenarioObserver (loopEntry scenarioObserver 0) scenarioThenPush).state
      = List.replicate
          (sends (runLoop scenarioObserver (loopEntry scenarioObserver 0)
            (scenario.take 13)).effects).length
          ⟨([⟨Selected.targetWrite 4, ms 1150, ms 1150⟩] : List (Tick Nat)).flatMap merged⟩ :=
  (send_holds_entries_since_last_flush scenarioObserver rfl 0 scenarioThenPush
    (by decide)).2.2.2.1 (scenario.take 13) [⟨Selected.targetWrite 4, ms 1150, ms 1150⟩]
    rfl (by decide) (by decide)

/-- C7 (amended): in a quiet run, woken only by idle ticks spaced `timeout` apart, with a
positive timeout and a non-negative report interval, every period of length
`reportInterval + timeout` lying within the run contains a flush (of an empty buffer). -/
theorem heartbeat_within_interval_plus_timeout (o : Observer R) (start : Time) (n : Nat) (hT : 0 < o.timeout)
    (hRI : 0 ≤ o.reportInterval) :
    heartbeatWithin o start n (o.reportInterval + o.timeout) := by
  intro a ha hend
  obtain ⟨i, hi, g1, g2⟩ := wake_before start o.timeout hT n (a + (o.reportInterval + o.timeout))
    (by linarith) hend
  obtain ⟨hA, hB, hC⟩ := idle_invariant o start (le_of_lt hT) hRI i
  obtain ⟨rest, hrest⟩ := idleTicks_split o start i n hi
  rcases hA with hA | ⟨f, hf, hA⟩
  · rw [hA] at hB
    linarith
  · refine ⟨f, ?_, ?_, ?_⟩
    · rw [hrest, flushTimes_append o _ _ _ (idleTicks_ne_exit o start i)]
      exact List.mem_append_left _ hf
    · rw [hA] at hB
      linarith
    · have := hC f hf
      linarith

/-- Witness of C7 (amended): timeout 300 ms, report interval 1 s, ten wake-ups. -/
theorem heartbeat_within_interval_plus_timeout_witness :
    heartbeatWithin (New true (ms 300) (ms 1000) : Observer Nat) 0 10
      ((New true (ms 300) (ms 1000) : Observer Nat).reportInterval
        + (New true (ms 300) (ms 1000) : Observer Nat).timeout) :=
  heartbeat_within_interval_plus_timeout (New true (ms 300) (ms 1000) : Observer Nat) 0 10
    (by decide) (by decide)

/-- C7 as stated fails: with timeout 300 ms and report interval 1 s a quiet run flushes at
1200 ms and 2400 ms only, so the period of one report interval from 1250 ms to 2250 ms
contains no flush. -/
theorem heartbeat_within_interval_fails :
    flushTimes (New true (ms 300) (ms 1000) : Observer Nat)
        (loopEntry (New true (ms 300) (ms 1000)) 0)
        (idleTicks (New true (ms 300) (ms 1000)) 0 10) = [ms 1200, ms 2400] ∧
    ¬ heartbeatWithin (New true (ms 300) (ms 1000) : Observer Nat) 0 10
        (New true (ms 300) (ms 1000) : Observer Nat).reportInterval := by
  have hft : flushTimes (New true (ms 300) (ms 1000) : Observer Nat)
        (loopEntry (New true (ms 300) (ms 1000)) 0)
        (idleTicks (New true (ms 300) (ms 1000)) 0 10) = [ms 1200, ms 2400] := by decide
  refine ⟨hft, ?_⟩
  intro h
  obtain ⟨f, hf, h1, h2⟩ := h (ms 1250) (by decide) (by decide)
  rw [hft] at hf
  simp only [List.mem_cons, List.mem_singleton, List.not_mem_nil, or_false] at hf
  rcases hf with rfl | rfl
  · exact absurd h1 (by decide)
  · exact absurd h2 (by decide)

/-- C1 as stated fails: `Start`, one `TargetWrite`, then `Stop`.  The goroutine reaches its
`select` with both the exit signal and the pushed result ready and takes the exit case:
when `Stop` has returned the only buffer the client received is empty and the result
pushed before the call is still in the channel. -/
theorem stop_misses_pending_result :
    exec (World.new true (ms 100) (ms 1000) : World Nat) earlyStop =
      some { o := { (New true (ms 100) (ms 1000) : Observer Nat) with targetWriteChan := [7] }
             caller := CallerPC.idle
             loops := [LoopPC.finished]
             effects := [Effect.warn Warning.receivedExitSignal, Effect.info ⟨[]⟩,
                         Effect.send BufferPtr.buffer ⟨[]⟩] } ∧
    pushedNormal earlyStop = [7] ∧
    sends [Effect.warn Warning.receivedExitSignal, Effect.info (⟨[]⟩ : ObserverBuffer Nat),
           Effect.send BufferPtr.buffer ⟨[]⟩] = [⟨[]⟩] := by
  decide

/-- C1 (amended): in every schedule of an observer with a client (pushes, loop steps,
`Start` and `Stop` in any interleaving), each result pushed is accounted for exactly once,
in the order of its channel and with the oversized flag of the channel that carried it:
in a buffer handed to `Send` (by a deadline flush or by the flush of `Stop`), in the
buffer of the loop, or still pending in its channel.  Once the loop has handled the exit
signal, in particular when `Stop` has returned, no buffer is left in the loop: the
buffers sent and the results still pending account for every push. -/
theorem pushes_sent_or_pending (timeout reportInterval : Duration) (acts : List (Action R))
    (w : World R) (h : exec (World.new true timeout reportInterval) acts = some w) :
    normals (sentEntries w ++ liveEntries w) ++ w.o.targetWriteChan = pushedNormal acts ∧
    oversizeds (sentEntries w ++ liveEntries w) ++ w.o.targetWriteOversizedChan
      = pushedOversized acts ∧
    (w.o.isRunning = false →
      liveEntries w = [] ∧
      normals (sentEntries w) ++ w.o.targetWriteChan = pushedNormal acts ∧
      oversizeds (sentEntries w) ++ w.o.targetWriteOversizedChan = pushedOversized acts) := by
  have hacc := exec_accounted _ [] [] (accounted_new timeout reportInterval) acts w h
  obtain ⟨_, hlife, hn, ho⟩ := hacc
  simp only [List.nil_append] at hn ho
  refine ⟨hn, ho, ?_⟩
  intro hr
  have hlive : liveEntries w = [] := by
    cases hlife with
    | stopped k hl _ _ => simp [liveEntries, hl, entries_replicate_finished]
    | running k l hl hlive hr2 _ => rw [hr] at hr2; cases hr2
    | stopping k hl _ _ =>
      simp [liveEntries, hl, List.flatMap_append, entries_replicate_finished, LoopPC.entries]
  rw [hlive, List.append_nil] at hn ho
  exact ⟨hlive, hn, ho⟩

/-- Witness of C1 (amended): one result sent by the flush of `Stop`, two left pending. -/
theorem pushes_sent_or_pending_witness :
    normals (sentEntries stopWithPendingEnd ++ liveEntries stopWithPendingEnd)
        ++ stopWithPendingEnd.o.targetWriteChan = pushedNormal stopWithPending ∧
    oversizeds (sentEntries stopWithPendingEnd ++ liveEntries stopWithPendingEnd)
        ++ stopWithPendingEnd.o.targetWriteOversizedChan = pushedOversized stopWithPending :=
  ⟨(pushes_sent_or_pending (ms 100) (ms 1000) stopWithPending stopWithPendingEnd
      (by decide)).1,
   (pushes_sent_or_pending (ms 100) (ms 1000) stopWithPending stopWithPendingEnd
      (by decide)).2.1⟩

/-- C8: each channel holds at most 1000 pending results.  A push on a channel with fewer
than 1000 pending results completes and appends the result at the tail, the earlier
entries keeping their order; a push on a channel holding 1000 results is blocked, and
stays blocked, the channel unchanged, through every schedule in which the loop does not
receive from that channel; once the loop has received one entry the push completes.
Nothing is dropped and no step fails otherwise. -/
theorem backpressure (w : World R) (r : R) :
    (w.o.targetWriteChan.length < 1000 →
      step w (Action.targetWrite r) =
        some { w with o := { w.o with targetWriteChan := w.o.targetWriteChan ++ [r] } }) ∧
    (w.o.targetWriteOversizedChan.length < 1000 →
      step w (Action.targetWriteOversized r) =
        some { w with o := { w.o with
          targetWriteOversizedChan := w.o.targetWriteOversizedChan ++ [r] } }) ∧
    (w.o.targetWriteChan.length = 1000 →
      step w (Action.targetWrite r) = none ∧
      (∀ (acts : List (Action R)) (w2 : World R), exec w acts = some w2 →
        (∀ i now nowReset,
          Action.loopSelect i SelectCase.targetWriteChan now nowReset ∉ acts) →
        w2.o.targetWriteChan = w.o.targetWriteChan ∧ step w2 (Action.targetWrite r) = none) ∧
      (∀ (i : Nat) (now nowReset : Time) (w1 : World R),
        step w (Action.loopSelect i SelectCase.targetWriteChan now nowReset) = some w1 →
        step w1 (Action.targetWrite r) =
          some { w1 with o := { w1.o with
            targetWriteChan := w.o.targetWriteChan.tail ++ [r] } })) ∧
    (w.o.targetWriteOversizedChan.length = 1000 →
      step w (Action.targetWriteOversized r) = none ∧
      (∀ (acts : List (Action R)) (w2 : World R), exec w acts = some w2 →
        (∀ i now nowReset,
          Action.loopSelect i SelectCase.targetWriteOversizedChan now nowReset ∉ acts) →
        w2.o.targetWriteOversizedChan = w.o.targetWriteOversizedChan ∧
        step w2 (Action.targetWriteOversized r) = none) ∧
      (∀ (i : Nat) (now nowReset : Time) (w1 : World R),
        step w (Action.loopSelect i SelectCase.targetWriteOversizedChan now nowReset) = some w1 →
        step w1 (Action.targetWriteOversized r) =
          some { w1 with o := { w1.o with
            targetWriteOversizedChan := w.o.targetWriteOversizedChan.tail ++ [r] } })) ∧
    (∀ (statsClient : Bool) (timeout reportInterval : Duration) (acts : List (Action R))
      (w2 : World R), exec (World.new statsClient timeout reportInterval) acts = some w2 →
      w2.o.targetWriteChan.length ≤ 1000 ∧ w2.o.targetWriteOversizedChan.length ≤ 1000) := by
  have push : ∀ v : World R, v.o.targetWriteChan.length < 1000 →
      step v (Action.targetWrite r) =
        some { v with o := { v.o with targetWriteChan := v.o.targetWriteChan ++ [r] } } := by
    intro v hv
    simp [step, TargetWrite, chanSend, chanCapacity, hv]
  have pushO : ∀ v : World R, v.o.targetWriteOversizedChan.length < 1000 →
      step v (Action.targetWriteOversized r) =
        some { v with o := { v.o with
          targetWriteOversizedChan := v.o.targetWriteOversizedChan ++ [r] } } := by
    intro v hv
    simp [step, TargetWriteOversized, chanSend, chanCapacity, hv]
  have block : ∀ v : World R, v.o.targetWriteChan.length = 1000 →
      step v (Action.targetWrite r) = none := by
    intro v hv
    simp [step, TargetWrite, chanSend, chanCapacity, hv]
  have blockO : ∀ v : World R, v.o.targetWriteOversizedChan.length = 1000 →
      step v (Action.targetWriteOversized r) = none := by
    intro v hv
    simp [step, TargetWriteOversized, chanSend, chanCapacity, hv]
  refine ⟨push w, pushO w, ?_, ?_, ?_⟩
  · intro hfull
    refine ⟨block w hfull, ?_, ?_⟩
    · intro acts w2 hex hno
      have hkeep := exec_full_targetWriteChan w acts w2 hex hfull hno
      exact ⟨hkeep, block w2 (by rw [hkeep]; exact hfull)⟩
    · intro i now nowReset w1 hs
      rcases step_targetWriteChan w _ w1 hs with ⟨_, _⟩ | ⟨r2, g, _, _⟩ | ⟨_, _, _, r2, _, g⟩
      · rename_i g _
        have hlen : w1.o.targetWriteChan.length = 1000 := by rw [g]; exact hfull
        obtain ⟨s, sel, w0, _, hrecv, rfl⟩ := loopSelect_some w i _ now nowReset w1 hs
        rcases receive_some w _ sel w0 hrecv with ⟨hc, _⟩ | ⟨_, r3, q, hq, _, rfl⟩ |
          ⟨hc, _⟩ | ⟨hc, _⟩
        · cases hc
        · simp only at hlen
          rw [hq] at hfull
          simp at hfull
          omega
        · cases hc
        · cases hc
      · cases g
      · have hlen : w1.o.targetWriteChan.length < 1000 := by
          rw [g] at hfull; simp at hfull; omega
        rw [push w1 hlen, g]
        rfl
  · intro hfull
    refine ⟨blockO w hfull, ?_, ?_⟩
    · intro acts w2 hex hno
      have hkeep := exec_full_targetWriteOversizedChan w acts w2 hex hfull hno
      exact ⟨hkeep, blockO w2 (by rw [hkeep]; exact hfull)⟩
    · intro i now nowReset w1 hs
      rcases step_targetWriteOversizedChan w _ w1 hs with
        ⟨_, _⟩ | ⟨r2, g, _, _⟩ | ⟨_, _, _, r2, _, g⟩
      · rename_i g _
        have hlen : w1.o.targetWriteOversizedChan.length = 1000 := by rw [g]; exact hfull
        obtain ⟨s, sel, w0, _, hrecv, rfl⟩ := loopSelect_some w i _ now nowReset w1 hs
        rcases receive_some w _ sel w0 hrecv with ⟨hc, _⟩ | ⟨hc, _⟩ |
          ⟨_, r3, q, hq, _, rfl⟩ | ⟨hc, _⟩
        · cases hc
        · cases hc
        · simp only at hlen
          rw [hq] at hfull
          simp at hfull
          omega
        · cases hc
      · cases g
      · have hlen : w1.o.targetWriteOversizedChan.length < 1000 := by
          rw [g] at hfull; simp at hfull; omega
        rw [pushO w1 hlen, g]
        rfl
  · intro sc tmo ri acts w2 hex
    exact exec_capacity _ acts w2 hex (by simp [World.new, New, chanCapacity])
      (by simp [World.new, New, chanCapacity])

/-- Witness of C8: a push on a channel holding 1000 results is blocked. -/
theorem backpressure_witness : step fullWorld (Action.targetWrite 5) = none :=
  ((backpressure fullWorld 5).2.2.1 (List.length_replicate 1000 0)).1

end Claims

end Snowbridge
